import Mathlib

/-!
Verification of the poker engine: hand evaluator (`src/poker/hands.py`,
`src/poker/util.py`), game state machine (`src/poker/game.py`,
`src/poker/game_data.py`) and the CFR strategy computation
(`src/agents/cfr.py`), embedded shallowly in Lean.

Conventions of the embedding:
* Python `int` chip quantities are `Int`; list/dict indices are `Nat`.
* Python `dict` objects are association lists in insertion order; `dict.get`
  is `List.lookup`.
* Operations that can raise (`IndexError`, `KeyError`, `TypeError`,
  unbounded recursion) return `Option`/`Except`: a `none`/`.error` result
  is a Python crash, and theorems about normal behaviour are stated on the
  `some`/`.ok` case.
* The random shuffle is modelled by passing the post-shuffle deck order as
  an explicit argument.
-/

set_option maxRecDepth 3000

namespace Poker

/-! ## Generic list helpers -/

/-- First-some choice on options (`a or b` for Python values where `None`
is the only falsy value in play). -/
def oElse : Option α → Option α → Option α
  | some a, _ => some a
  | none, b => b

@[simp] theorem oElse_some (a : α) (o : Option α) : oElse (some a) o = some a := rfl

@[simp] theorem oElse_none (o : Option α) : oElse none o = o := rfl

/-- Python `util.same`: every element equals its predecessor. -/
def sameB [BEq α] : List α → Bool
  | [] => true
  | [_] => true
  | a :: b :: t => a == b && sameB (b :: t)

/-- Python `l[i] = f(l[i])` on a list: `none` when the index is out of
range (an `IndexError` in the source). -/
def updateAt? (f : α → α) : List α → Nat → Option (List α)
  | [], _ => none
  | x :: t, 0 => some (f x :: t)
  | x :: t, n + 1 => (updateAt? f t n).map (x :: ·)

theorem updateAt?_spec {f : α → α} :
    ∀ {l : List α} {i : Nat} {l' : List α}, updateAt? f l i = some l' →
      ∃ x, l[i]? = some x ∧ l' = l.set i (f x) := by
  intro l
  induction l with
  | nil => intro i l' h; simp [updateAt?] at h
  | cons x t ih =>
    intro i l' h
    cases i with
    | zero =>
      simp [updateAt?] at h
      exact ⟨x, by simp, h.symm⟩
    | succ n =>
      simp only [updateAt?, Option.map_eq_some'] at h
      obtain ⟨t', ht', rfl⟩ := h
      obtain ⟨y, hy, rfl⟩ := ih ht'
      exact ⟨y, by simpa using hy, rfl⟩

/-- Sum of a projection across `List.set`. -/
theorem sum_map_set (g : α → Int) :
    ∀ (l : List α) (i : Nat) (a x : α), l[i]? = some x →
      ((l.set i a).map g).sum = (l.map g).sum - g x + g a := by
  intro l
  induction l with
  | nil => intro i a x hx; simp at hx
  | cons y t ih =>
    intro i a x hx
    cases i with
    | zero =>
      simp at hx
      subst hx
      simp [List.set]
      ring
    | succ n =>
      simp at hx
      simp only [List.set, List.map_cons, List.sum_cons]
      rw [ih n a x hx]
      ring

/-- `allSome` turns a list of options into an option of a list, failing if
any element is `none` (Python `min` over a list containing `None` raises). -/
def allSome : List (Option α) → Option (List α)
  | [] => some []
  | none :: _ => none
  | some a :: t => (allSome t).map (a :: ·)

/-! ## Cards (`src/poker/util.py`) -/

/-- A playing card: rank 0 = Two … 12 = Ace, suit 0 = spades, 1 = hearts,
2 = diamonds, 3 = clubs, exactly as `util.Rank` / `util.Suit`. -/
structure Card where
  rank : Fin 13
  suit : Fin 4
deriving DecidableEq, Repr

/-- The per-rank prime from `Rank.__init__`. -/
def primeOf (r : Nat) : Nat := [2, 3, 5, 7, 11, 13, 17, 19, 23, 29, 31, 37, 41].getD r 1

/-- `Card.prime_prod`: product of the rank primes of a hand. -/
def primeProd (cs : List Card) : Nat := (cs.map fun c => primeOf c.rank.val).prod

/-- Card literal helper. -/
def mkCard (r : Fin 13) (s : Fin 4) : Card := ⟨r, s⟩

/-- `Deck.DECK`: for each suit, the Ace followed by Two … King. -/
def deckStd : List Card :=
  (List.range 4).flatMap fun s =>
    ((12 :: List.range 12).map fun r => ⟨⟨r % 13, Nat.mod_lt _ (by norm_num)⟩, ⟨s % 4, Nat.mod_lt _ (by norm_num)⟩⟩)

/-- `Deck.deal(n)`: the last `n` cards are dealt and rotated to the front
of the deck; returns (dealt cards, new deck). -/
def dealCards (deck : List Card) (n : Nat) : List Card × List Card :=
  let out := deck.drop (deck.length - n)
  (out, out ++ deck.take (deck.length - n))

/-! ## Hand evaluator tables (`Hand.generate_lookup` in `src/poker/hands.py`)

The Python code fills two dicts keyed by prime products, writing ranks from
a per-band counter `n` that starts at `COUNT - 1` and decreases once per
iteration; the `i`-th entry of a band therefore has value
`BAND_BEST + (COUNT - 1 - i)`, which is how the tables are written below
(`List.enum` supplies the iteration index `i`).  The pretty-print string
table is not modelled: no claim mentions it. -/

def STR_FLUSH_BEST : Nat := 1
def FOURS_BEST : Nat := 11
def FULL_BEST : Nat := 167
def FLUSH_BEST : Nat := 323
def STRAIGHT_BEST : Nat := 1600
def TRIPS_BEST : Nat := 1610
def TPAIR_BEST : Nat := 2468
def PAIR_BEST : Nat := 3326
def HIGH_BEST : Nat := 6186
def HAND_COUNT : Nat := 7462

/-- `key(*ranks)` from `generate_lookup`: the product of the rank primes. -/
def keyOf (rs : List Nat) : Nat := (rs.map primeOf).prod

/-- The ten straight keys, strongest first, as hard-coded in the source. -/
def straightKeyList : List Nat :=
  [31367009, 14535931, 6678671, 2800733, 1062347, 323323, 85085, 15015, 2310, 8610]

def unsuitedStraights : List (Nat × Nat) :=
  straightKeyList.enum.map fun p => (p.2, STRAIGHT_BEST + p.1)

def suitedStraights : List (Nat × Nat) :=
  straightKeyList.enum.map fun p => (p.2, STR_FLUSH_BEST + p.1)

/-- Entry pair written per iteration of the fours/full-house loop (two
dict entries per iteration, same counter value). -/
def ffEntry (p : Nat × (Nat × Nat)) : List (Nat × Nat) :=
  [(keyOf [p.2.1, p.2.1, p.2.1, p.2.1, p.2.2], FOURS_BEST + (156 - 1 - p.1)),
   (keyOf [p.2.1, p.2.1, p.2.1, p.2.2, p.2.2], FULL_BEST + (156 - 1 - p.1))]

/-- Per-`a` iteration space of the fours/full-house loop: `b` over all
ranks distinct from `a`. -/
def ffGen (a : Nat) : List (Nat × Nat) :=
  (List.range 13).filterMap fun b => if b = a then none else some (a, b)

def foursTuples : List (Nat × Nat) := (List.range 13).flatMap ffGen

def foursFullT : List (Nat × Nat) := foursTuples.enum.flatMap ffEntry

/-- Per-`a` iteration space of the trips loop: `b ≠ a`, `c < b`, `c ≠ a`. -/
def tripsGen (a : Nat) : List (Nat × Nat × Nat) :=
  (List.range 13).flatMap fun b =>
    if b = a then [] else
      (List.range b).filterMap fun c => if c = a then none else some (a, b, c)

def tripsTuples : List (Nat × Nat × Nat) := (List.range 13).flatMap tripsGen

def tripsEntry (p : Nat × (Nat × Nat × Nat)) : Nat × Nat :=
  (keyOf [p.2.1, p.2.1, p.2.1, p.2.2.1, p.2.2.2], TRIPS_BEST + (858 - 1 - p.1))

def tripsT : List (Nat × Nat) := tripsTuples.enum.map tripsEntry

/-- Per-`a` iteration space of the two-pair loop: `b < a`, `c ∉ {a, b}`. -/
def tpairGen (a : Nat) : List (Nat × Nat × Nat) :=
  (List.range a).flatMap fun b =>
    (List.range 13).filterMap fun c => if c = a ∨ c = b then none else some (a, b, c)

def tpairTuples : List (Nat × Nat × Nat) := (List.range 13).flatMap tpairGen

def tpairEntry (p : Nat × (Nat × Nat × Nat)) : Nat × Nat :=
  (keyOf [p.2.1, p.2.1, p.2.2.1, p.2.2.1, p.2.2.2], TPAIR_BEST + (858 - 1 - p.1))

def tpairT : List (Nat × Nat) := tpairTuples.enum.map tpairEntry

/-- Per-`(a, b)` iteration space of the pair loop: `b ≠ a`, `c < b`,
`c ≠ a`, `d < c`, `d ≠ a`. -/
def pairGen2 (a b : Nat) : List (Nat × Nat × Nat × Nat) :=
  if b = a then [] else
    (List.range b).flatMap fun c =>
      if c = a then [] else
        (List.range c).filterMap fun d => if d = a then none else some (a, b, c, d)

def pairGen (a : Nat) : List (Nat × Nat × Nat × Nat) :=
  (List.range 13).flatMap (pairGen2 a)

def pairTuples : List (Nat × Nat × Nat × Nat) := (List.range 13).flatMap pairGen

def pairEntry (p : Nat × (Nat × Nat × Nat × Nat)) : Nat × Nat :=
  (keyOf [p.2.1, p.2.1, p.2.2.1, p.2.2.2.1, p.2.2.2.2], PAIR_BEST + (2860 - 1 - p.1))

def pairT : List (Nat × Nat) := pairTuples.enum.map pairEntry

/-- The straight test from the high-card/flush loop:
`[0, d-e, c-e, b-e, a-e] == [0, 1, 2, 3, 4]`, or the Ace-to-Five wheel
`[e, d, c, b, a] == [0, 1, 2, 3, ACE]`. -/
def isStraightTup (a b c d e : Nat) : Bool :=
  (d - e == 1 && c - e == 2 && b - e == 3 && a - e == 4) ||
  (e == 0 && d == 1 && c == 2 && b == 3 && a == 12)

/-- Per-`(a, b)` iteration space of the high-card/flush loop: strictly
decreasing tuples below `b`, skipping straights and the wheel. -/
def highGen2 (a b : Nat) : List (Nat × Nat × Nat × Nat × Nat) :=
  (List.range b).flatMap fun c =>
    (List.range c).flatMap fun d =>
      (List.range d).filterMap fun e =>
        if isStraightTup a b c d e then none else some (a, b, c, d, e)

def highGen (a : Nat) : List (Nat × Nat × Nat × Nat × Nat) :=
  (List.range a).flatMap (highGen2 a)

def highTuples : List (Nat × Nat × Nat × Nat × Nat) :=
  (List.range 13).flatMap highGen

def highKeyOf (t : Nat × Nat × Nat × Nat × Nat) : Nat :=
  keyOf [t.1, t.2.1, t.2.2.1, t.2.2.2.1, t.2.2.2.2]

def highEntry (p : Nat × (Nat × Nat × Nat × Nat × Nat)) : Nat × Nat :=
  (highKeyOf p.2, HIGH_BEST + (1277 - 1 - p.1))

def flushEntry (p : Nat × (Nat × Nat × Nat × Nat × Nat)) : Nat × Nat :=
  (highKeyOf p.2, FLUSH_BEST + (1277 - 1 - p.1))

def highT : List (Nat × Nat) := highTuples.enum.map highEntry

def flushT : List (Nat × Nat) := highTuples.enum.map flushEntry

/-- `Hand.UNSUITED`, as an association list in dict insertion order. -/
def UNSUITED : List (Nat × Nat) :=
  unsuitedStraights ++ foursFullT ++ tripsT ++ tpairT ++ pairT ++ highT

/-- `Hand.SUITED`, as an association list in dict insertion order. -/
def SUITED : List (Nat × Nat) := suitedStraights ++ flushT

/-! ### Depth-bounded table search

`dict.get` on the tables above is `List.lookup`; scanning the whole
association list in one recursion chain overflows the interpreter stack,
so concrete computations use a segmented searcher that walks one short
generator segment at a time and prunes segments whose keys cannot match
(every key in a segment is divisible by the segment's rank primes).
`unsuitedFind_eq` / `suitedFind_eq` prove the searcher agrees with
`List.lookup` on the tables at every key. -/

theorem lookup_append (k : Nat) :
    ∀ (l₁ l₂ : List (Nat × Nat)),
      List.lookup k (l₁ ++ l₂) = oElse (List.lookup k l₁) (List.lookup k l₂) := by
  intro l₁ l₂
  induction l₁ with
  | nil => simp [oElse]
  | cons e t ih =>
    obtain ⟨a, b⟩ := e
    simp only [List.cons_append, List.lookup]
    cases h : k == a
    · simpa [h] using ih
    · simp [h, oElse]

theorem lookup_eq_none {k : Nat} :
    ∀ {l : List (Nat × Nat)}, (∀ e ∈ l, e.1 ≠ k) → List.lookup k l = none := by
  intro l
  induction l with
  | nil => intro _; rfl
  | cons e t ih =>
    intro h
    obtain ⟨a, b⟩ := e
    have ha : a ≠ k := h (a, b) (by simp)
    simp only [List.lookup]
    have hba : (k == a) = false := by simp [ha.symm]
    rw [hba]
    exact ih fun e he => h e (by simp [he])

/-- Search a list of generator values, giving each value's segment a
chance before advancing the enumeration offset by the segment length. -/
def segSearch (inner : γ → Nat → Option Nat) (len : γ → Nat) : List γ → Nat → Option Nat
  | [], _ => none
  | a :: as, n => oElse (inner a n) (segSearch inner len as (n + len a))

/-- `segSearch` with a pruning predicate: segments whose keys cannot
match are skipped without being built (their length comes from a
precomputed table). -/
def segSearchP (pred : γ → Bool) (inner : γ → Nat → Option Nat) (len : γ → Nat) :
    List γ → Nat → Option Nat
  | [], _ => none
  | a :: as, n =>
    if pred a then oElse (inner a n) (segSearchP pred inner len as (n + len a))
    else segSearchP pred inner len as (n + len a)

theorem segSearch_len_congr {inner : γ → Nat → Option Nat} {len₁ len₂ : γ → Nat} :
    ∀ (A : List γ), (∀ a ∈ A, len₁ a = len₂ a) →
      ∀ n, segSearch inner len₁ A n = segSearch inner len₂ A n := by
  intro A
  induction A with
  | nil => intro _ n; rfl
  | cons a as ih =>
    intro h n
    simp only [segSearch, h a (by simp), ih fun x hx => h x (by simp [hx])]

theorem segSearchP_eq {pred : γ → Bool} {inner : γ → Nat → Option Nat} {len : γ → Nat}
    (h : ∀ a, pred a = false → ∀ n, inner a n = none) :
    ∀ (A : List γ) (n : Nat), segSearch inner len A n = segSearchP pred inner len A n := by
  intro A
  induction A with
  | nil => intro n; rfl
  | cons a as ih =>
    intro n
    simp only [segSearch, segSearchP]
    cases hp : pred a
    · rw [if_neg (by simp [hp]), h a hp, ih]
      rfl
    · rw [if_pos (by simp [hp]), ih]

theorem segSearchP_congr {pred : γ → Bool} {inner₁ inner₂ : γ → Nat → Option Nat}
    {len : γ → Nat} :
    ∀ (A : List γ), (∀ a ∈ A, ∀ n, inner₁ a n = inner₂ a n) →
      ∀ n, segSearchP pred inner₁ len A n = segSearchP pred inner₂ len A n := by
  intro A
  induction A with
  | nil => intro _ n; rfl
  | cons a as ih =>
    intro h n
    simp only [segSearchP, h a (by simp), ih fun x hx => h x (by simp [hx])]

theorem segSearchP_none {pred : γ → Bool} {inner : γ → Nat → Option Nat} {len : γ → Nat}
    (h : ∀ a n, inner a n = none) :
    ∀ (A : List γ) (n : Nat), segSearchP pred inner len A n = none := by
  intro A
  induction A with
  | nil => intro n; rfl
  | cons a as ih =>
    intro n
    simp only [segSearchP]
    cases hp : pred a <;> simp [hp, h, ih]

theorem lookup_flat_enum_map (k : Nat) (g : γ → List β) (f : Nat × β → Nat × Nat) :
    ∀ (A : List γ) (n : Nat),
      List.lookup k (((A.flatMap g).enumFrom n).map f) =
        segSearch (fun a m => List.lookup k (((g a).enumFrom m).map f))
          (fun a => (g a).length) A n := by
  intro A
  induction A with
  | nil => intro n; simp [segSearch]
  | cons a as ih =>
    intro n
    rw [List.flatMap_cons, List.enumFrom_append, List.map_append, lookup_append]
    simp only [segSearch, ih]

theorem lookup_flat_enum_flatMap (k : Nat) (g : γ → List β)
    (h : Nat × β → List (Nat × Nat)) :
    ∀ (A : List γ) (n : Nat),
      List.lookup k (((A.flatMap g).enumFrom n).flatMap h) =
        segSearch (fun a m => List.lookup k (((g a).enumFrom m).flatMap h))
          (fun a => (g a).length) A n := by
  intro A
  induction A with
  | nil => intro n; simp [segSearch]
  | cons a as ih =>
    intro n
    rw [List.flatMap_cons, List.enumFrom_append, List.flatMap_append, lookup_append]
    simp only [segSearch, ih]

/-! #### Membership shapes of the generator segments -/

theorem snd_mem_of_mem_enumFrom :
    ∀ {l : List β} {n : Nat} {p : Nat × β}, p ∈ l.enumFrom n → p.2 ∈ l := by
  intro l
  induction l with
  | nil => intro n p h; simp [List.enumFrom] at h
  | cons x xs ih =>
    intro n p h
    rw [List.enumFrom_cons] at h
    rcases List.mem_cons.mp h with h | h
    · subst h; simp
    · exact List.mem_cons.mpr (Or.inr (ih h))

theorem mem_ffGen {a : Nat} {t : Nat × Nat} (ht : t ∈ ffGen a) : t.1 = a := by
  rw [ffGen] at ht
  obtain ⟨b, _, hb⟩ := List.mem_filterMap.mp ht
  split at hb
  · exact absurd hb (by simp)
  · cases hb; rfl

theorem mem_tripsGen {a : Nat} {t : Nat × Nat × Nat} (ht : t ∈ tripsGen a) : t.1 = a := by
  rw [tripsGen] at ht
  obtain ⟨b, _, hb⟩ := List.mem_flatMap.mp ht
  split at hb
  · simp at hb
  · obtain ⟨c, _, hc⟩ := List.mem_filterMap.mp hb
    split at hc
    · exact absurd hc (by simp)
    · cases hc; rfl

theorem mem_tpairGen {a : Nat} {t : Nat × Nat × Nat} (ht : t ∈ tpairGen a) : t.1 = a := by
  rw [tpairGen] at ht
  obtain ⟨b, _, hb⟩ := List.mem_flatMap.mp ht
  obtain ⟨c, _, hc⟩ := List.mem_filterMap.mp hb
  split at hc
  · exact absurd hc (by simp)
  · cases hc; rfl

theorem mem_pairGen {a : Nat} {t : Nat × Nat × Nat × Nat} (ht : t ∈ pairGen a) : t.1 = a := by
  rw [pairGen] at ht
  obtain ⟨b, _, hb⟩ := List.mem_flatMap.mp ht
  rw [pairGen2] at hb
  split at hb
  · simp at hb
  · obtain ⟨c, _, hc⟩ := List.mem_flatMap.mp hb
    split at hc
    · simp at hc
    · obtain ⟨d, _, hd⟩ := List.mem_filterMap.mp hc
      split at hd
      · exact absurd hd (by simp)
      · cases hd; rfl

theorem mem_highGen2 {a b : Nat} {t : Nat × Nat × Nat × Nat × Nat}
    (ht : t ∈ highGen2 a b) : t.1 = a ∧ t.2.1 = b := by
  rw [highGen2] at ht
  obtain ⟨c, _, hc⟩ := List.mem_flatMap.mp ht
  obtain ⟨d, _, hd⟩ := List.mem_flatMap.mp hc
  obtain ⟨e, _, he⟩ := List.mem_filterMap.mp hd
  split at he
  · exact absurd he (by simp)
  · cases he; exact ⟨rfl, rfl⟩

theorem mem_highGen {a : Nat} {t : Nat × Nat × Nat × Nat × Nat}
    (ht : t ∈ highGen a) : t.1 = a := by
  rw [highGen] at ht
  obtain ⟨b, _, hb⟩ := List.mem_flatMap.mp ht
  exact (mem_highGen2 hb).1

/-! #### Key divisibility of the generator segments -/

theorem primeOf_pos (r : Nat) : 0 < primeOf r := by
  rw [primeOf]
  rcases Nat.lt_or_ge r 13 with h | h
  · interval_cases r <;> decide
  · rw [List.getD_eq_default _ _ (by simpa using h)]
    decide

theorem not_dvd_of_modCheck {d k : Nat} (h : (k % d == 0) = false) : ¬ d ∣ k := by
  intro hd
  rw [Nat.mod_eq_zero_of_dvd hd] at h
  simp at h

theorem keyOf5 (x₁ x₂ x₃ x₄ x₅ : Nat) :
    keyOf [x₁, x₂, x₃, x₄, x₅] =
      primeOf x₁ * (primeOf x₂ * (primeOf x₃ * (primeOf x₄ * primeOf x₅))) := by
  simp [keyOf, Nat.mul_assoc]

theorem ffSeg_none {k a : Nat} (h : ¬ primeOf a ^ 3 ∣ k) (m : Nat) :
    List.lookup k (((ffGen a).enumFrom m).flatMap ffEntry) = none := by
  refine lookup_eq_none (fun e he => ?_)
  obtain ⟨p, hp, hep⟩ := List.mem_flatMap.mp he
  have hx1 : p.2.1 = a := mem_ffGen (snd_mem_of_mem_enumFrom hp)
  intro hek
  apply h
  simp only [ffEntry, List.mem_cons, List.not_mem_nil, or_false] at hep
  rcases hep with rfl | rfl
  · rw [← hek]
    simp only [hx1, keyOf5]
    exact ⟨primeOf a * primeOf p.2.2, by ring⟩
  · rw [← hek]
    simp only [hx1, keyOf5]
    exact ⟨primeOf p.2.2 * primeOf p.2.2, by ring⟩

theorem tripsSeg_none {k a : Nat} (h : ¬ primeOf a ^ 3 ∣ k) (m : Nat) :
    List.lookup k (((tripsGen a).enumFrom m).map tripsEntry) = none := by
  refine lookup_eq_none (fun e he => ?_)
  obtain ⟨p, hp, rfl⟩ := List.mem_map.mp he
  have h1 := mem_tripsGen (snd_mem_of_mem_enumFrom hp)
  intro hek
  apply h
  rw [← hek, tripsEntry]
  simp only [h1, keyOf5]
  exact ⟨primeOf p.2.2.1 * primeOf p.2.2.2, by ring⟩

theorem tpairSeg_none {k a : Nat} (h : ¬ primeOf a ^ 2 ∣ k) (m : Nat) :
    List.lookup k (((tpairGen a).enumFrom m).map tpairEntry) = none := by
  refine lookup_eq_none (fun e he => ?_)
  obtain ⟨p, hp, rfl⟩ := List.mem_map.mp he
  have h1 := mem_tpairGen (snd_mem_of_mem_enumFrom hp)
  intro hek
  apply h
  rw [← hek, tpairEntry]
  simp only [h1, keyOf5]
  exact ⟨primeOf p.2.2.1 * (primeOf p.2.2.1 * primeOf p.2.2.2), by ring⟩

theorem pairSeg_none {k a : Nat} (h : ¬ primeOf a ^ 2 ∣ k) (m : Nat) :
    List.lookup k (((pairGen a).enumFrom m).map pairEntry) = none := by
  refine lookup_eq_none (fun e he => ?_)
  obtain ⟨p, hp, rfl⟩ := List.mem_map.mp he
  have h1 := mem_pairGen (snd_mem_of_mem_enumFrom hp)
  intro hek
  apply h
  rw [← hek, pairEntry]
  simp only [h1, keyOf5]
  exact ⟨primeOf p.2.2.1 * (primeOf p.2.2.2.1 * primeOf p.2.2.2.2), by ring⟩

theorem highGenSeg_none {k a : Nat} (f : Nat × (Nat × Nat × Nat × Nat × Nat) → Nat × Nat)
    (hf : ∀ p, (f p).1 = highKeyOf p.2)
    (h : ¬ primeOf a ∣ k) (m : Nat) :
    List.lookup k (((highGen a).enumFrom m).map f) = none := by
  refine lookup_eq_none (fun e he => ?_)
  obtain ⟨p, hp, rfl⟩ := List.mem_map.mp he
  have h1 := mem_highGen (snd_mem_of_mem_enumFrom hp)
  intro hek
  apply h
  rw [← hek, hf, highKeyOf]
  simp only [h1, keyOf5]
  exact ⟨primeOf p.2.2.1 * (primeOf p.2.2.2.1 * (primeOf p.2.2.2.2.1 * primeOf p.2.2.2.2.2)),
    by ring⟩

theorem highSeg_none_b {k a b : Nat} (f : Nat × (Nat × Nat × Nat × Nat × Nat) → Nat × Nat)
    (hf : ∀ p, (f p).1 = highKeyOf p.2)
    (h : ¬ primeOf b ∣ k) (m : Nat) :
    List.lookup k (((highGen2 a b).enumFrom m).map f) = none := by
  refine lookup_eq_none (fun e he => ?_)
  obtain ⟨p, hp, rfl⟩ := List.mem_map.mp he
  have h1 := (mem_highGen2 (snd_mem_of_mem_enumFrom hp)).2
  intro hek
  apply h
  rw [← hek, hf, highKeyOf]
  simp only [h1, keyOf5]
  exact ⟨primeOf p.2.1 * (primeOf p.2.2.2.1 * (primeOf p.2.2.2.2.1 * primeOf p.2.2.2.2.2)),
    by ring⟩

/-! #### Segment-length tables, checked against the generators -/

theorem ffGen_len : ∀ a ∈ List.range 13, (ffGen a).length = 12 := by decide

theorem tripsGen_len : ∀ a ∈ List.range 13, (tripsGen a).length = 66 := by decide

theorem tpairGen_len : ∀ a ∈ List.range 13, (tpairGen a).length = a * 11 := by decide

theorem pairGen_len : ∀ a ∈ List.range 13, (pairGen a).length = 220 := by decide

def highLenTab : List Nat := [0, 0, 0, 0, 0, 4, 14, 34, 69, 125, 209, 329, 493]

def highLen (a : Nat) : Nat := highLenTab.getD a 0

def highLen2Tab : List (List Nat) :=
  [[0, 0, 0, 1, 4, 10, 20, 35, 56, 84, 120, 165, 220],
   [0, 0, 0, 1, 4, 10, 20, 35, 56, 84, 120, 165, 220],
   [0, 0, 0, 1, 4, 10, 20, 35, 56, 84, 120, 165, 220],
   [0, 0, 0, 1, 4, 10, 20, 35, 56, 84, 120, 165, 220],
   [0, 0, 0, 0, 4, 10, 20, 35, 56, 84, 120, 165, 220],
   [0, 0, 0, 1, 3, 10, 20, 35, 56, 84, 120, 165, 220],
   [0, 0, 0, 1, 4, 9, 20, 35, 56, 84, 120, 165, 220],
   [0, 0, 0, 1, 4, 10, 19, 35, 56, 84, 120, 165, 220],
   [0, 0, 0, 1, 4, 10, 20, 34, 56, 84, 120, 165, 220],
   [0, 0, 0, 1, 4, 10, 20, 35, 55, 84, 120, 165, 220],
   [0, 0, 0, 1, 4, 10, 20, 35, 56, 83, 120, 165, 220],
   [0, 0, 0, 1, 4, 10, 20, 35, 56, 84, 119, 165, 220],
   [0, 0, 0, 0, 4, 10, 20, 35, 56, 84, 120, 164, 220]]

def highLen2 (a b : Nat) : Nat := (highLen2Tab.getD a []).getD b 0

theorem highGen_len : ∀ a ∈ List.range 13, (highGen a).length = highLen a := by decide

theorem highGen2_len : ∀ a ∈ List.range 13, ∀ b ∈ List.range a,
    (highGen2 a b).length = highLen2 a b := by decide

/-! #### The pruned searchers -/

def findFFP (k : Nat) : Option Nat :=
  segSearchP (fun a => k % primeOf a ^ 3 == 0)
    (fun a m => List.lookup k (((ffGen a).enumFrom m).flatMap ffEntry))
    (fun _ => 12) (List.range 13) 0

theorem findFFP_eq (k : Nat) : List.lookup k foursFullT = findFFP k := by
  rw [foursFullT, foursTuples, List.enum_eq_enumFrom, lookup_flat_enum_flatMap,
    segSearch_len_congr _ ffGen_len,
    segSearchP_eq (fun a hp m => ffSeg_none (not_dvd_of_modCheck hp) m)]
  rfl

def findTripsP (k : Nat) : Option Nat :=
  segSearchP (fun a => k % primeOf a ^ 3 == 0)
    (fun a m => List.lookup k (((tripsGen a).enumFrom m).map tripsEntry))
    (fun _ => 66) (List.range 13) 0

theorem findTripsP_eq (k : Nat) : List.lookup k tripsT = findTripsP k := by
  rw [tripsT, tripsTuples, List.enum_eq_enumFrom, lookup_flat_enum_map,
    segSearch_len_congr _ tripsGen_len,
    segSearchP_eq (fun a hp m => tripsSeg_none (not_dvd_of_modCheck hp) m)]
  rfl

def findTpairP (k : Nat) : Option Nat :=
  segSearchP (fun a => k % primeOf a ^ 2 == 0)
    (fun a m => List.lookup k (((tpairGen a).enumFrom m).map tpairEntry))
    (fun a => a * 11) (List.range 13) 0

theorem findTpairP_eq (k : Nat) : List.lookup k tpairT = findTpairP k := by
  rw [tpairT, tpairTuples, List.enum_eq_enumFrom, lookup_flat_enum_map,
    segSearch_len_congr _ tpairGen_len,
    segSearchP_eq (fun a hp m => tpairSeg_none (not_dvd_of_modCheck hp) m)]
  rfl

def findPairP (k : Nat) : Option Nat :=
  segSearchP (fun a => k % primeOf a ^ 2 == 0)
    (fun a m => List.lookup k (((pairGen a).enumFrom m).map pairEntry))
    (fun _ => 220) (List.range 13) 0

theorem findPairP_eq (k : Nat) : List.lookup k pairT = findPairP k := by
  rw [pairT, pairTuples, List.enum_eq_enumFrom, lookup_flat_enum_map,
    segSearch_len_congr _ pairGen_len,
    segSearchP_eq (fun a hp m => pairSeg_none (not_dvd_of_modCheck hp) m)]
  rfl

def findHighP (k : Nat) : Option Nat :=
  segSearchP (fun a => k % primeOf a == 0)
    (fun a m =>
      segSearchP (fun b => k % primeOf b == 0)
        (fun b m' => List.lookup k (((highGen2 a b).enumFrom m').map highEntry))
        (fun b => highLen2 a b) (List.range a) m)
    (fun a => highLen a) (List.range 13) 0

theorem findHighP_eq (k : Nat) : List.lookup k highT = findHighP k := by
  rw [highT, highTuples, List.enum_eq_enumFrom, lookup_flat_enum_map,
    segSearch_len_congr _ highGen_len,
    @segSearchP_eq _ (fun a => k % primeOf a == 0) _ _
      (fun a hp m => highGenSeg_none highEntry (fun _ => rfl) (not_dvd_of_modCheck hp) m),
    findHighP]
  refine segSearchP_congr _ (fun a ha m => ?_) 0
  rw [highGen, lookup_flat_enum_map,
    segSearch_len_congr _ (highGen2_len a ha),
    segSearchP_eq (fun b hp m' => highSeg_none_b highEntry (fun _ => rfl)
      (not_dvd_of_modCheck hp) m')]

def findFlushP (k : Nat) : Option Nat :=
  segSearchP (fun a => k % primeOf a == 0)
    (fun a m =>
      segSearchP (fun b => k % primeOf b == 0)
        (fun b m' => List.lookup k (((highGen2 a b).enumFrom m').map flushEntry))
        (fun b => highLen2 a b) (List.range a) m)
    (fun a => highLen a) (List.range 13) 0

theorem findFlushP_eq (k : Nat) : List.lookup k flushT = findFlushP k := by
  rw [flushT, highTuples, List.enum_eq_enumFrom, lookup_flat_enum_map,
    segSearch_len_congr _ highGen_len,
    @segSearchP_eq _ (fun a => k % primeOf a == 0) _ _
      (fun a hp m => highGenSeg_none flushEntry (fun _ => rfl) (not_dvd_of_modCheck hp) m),
    findFlushP]
  refine segSearchP_congr _ (fun a ha m => ?_) 0
  rw [highGen, lookup_flat_enum_map,
    segSearch_len_congr _ (highGen2_len a ha),
    segSearchP_eq (fun b hp m' => highSeg_none_b flushEntry (fun _ => rfl)
      (not_dvd_of_modCheck hp) m')]

/-- Depth-bounded form of `dict.get` on `Hand.UNSUITED`. -/
def unsuitedFind (k : Nat) : Option Nat :=
  oElse (List.lookup k unsuitedStraights)
    (oElse (findFFP k)
      (oElse (findTripsP k)
        (oElse (findTpairP k)
          (oElse (findPairP k) (findHighP k)))))

theorem oElse_assoc (a b c : Option α) : oElse (oElse a b) c = oElse a (oElse b c) := by
  cases a <;> rfl

theorem unsuitedFind_eq (k : Nat) : List.lookup k UNSUITED = unsuitedFind k := by
  rw [UNSUITED, lookup_append, lookup_append, lookup_append, lookup_append, lookup_append,
    findFFP_eq, findTripsP_eq, findTpairP_eq, findPairP_eq, findHighP_eq]
  simp only [oElse_assoc]
  rfl

/-- Depth-bounded form of `dict.get` on `Hand.SUITED`. -/
def suitedFind (k : Nat) : Option Nat :=
  oElse (List.lookup k suitedStraights) (findFlushP k)

theorem suitedFind_eq (k : Nat) : List.lookup k SUITED = suitedFind k := by
  rw [SUITED, lookup_append, findFlushP_eq]
  rfl

/-! ## `evaluate` (`src/poker/hands.py`) -/

/-- `itertools.combinations(cards, k)`: all `k`-element subsequences in
the order Python yields them (tuples containing earlier elements first). -/
def combosK : Nat → List α → List (List α)
  | 0, _ => [[]]
  | _ + 1, [] => []
  | k + 1, x :: xs => ((combosK k xs).map (x :: ·)) ++ combosK (k + 1) xs

/-- `hands.lookup(cards)`: pick the suited table when all suits match,
then `dict.get` the prime product (written with the depth-bounded searcher;
`lookupHand_tables` below restates it against the association lists). -/
def lookupHand (cs : List Card) : Option Nat :=
  if sameB (cs.map Card.suit) then suitedFind (primeProd cs) else unsuitedFind (primeProd cs)

theorem lookupHand_tables (cs : List Card) :
    lookupHand cs =
      if sameB (cs.map Card.suit) then List.lookup (primeProd cs) SUITED
      else List.lookup (primeProd cs) UNSUITED := by
  rw [lookupHand, suitedFind_eq, unsuitedFind_eq]

/-- `hands.evaluate`, with explicit recursion fuel (the recursion depth is
bounded by the hand size: every 5-element combination is evaluated by the
table branch).  A 5-card hand is a table lookup; a larger hand is the
minimum of `evaluate` over `combinations(cards, 5)`; fewer than 5 cards is
the failed `assert` (the `len(cards) == 1` unwrapping in the source
applies to a nested-sequence call pattern that has no typed analogue). -/
def evaluateF : Nat → List Card → Option Nat
  | 0, _ => none
  | fuel + 1, cs =>
    if cs.length = 5 then lookupHand cs
    else if 5 < cs.length then
      match allSome ((combosK 5 cs).map (evaluateF fuel)) with
      | none => none
      | some vs => vs.min?
    else none

def evaluate (cs : List Card) : Option Nat := evaluateF cs.length cs


/-! ## Game data (`src/poker/game_data.py`)

The enums below follow `game_data.py`.  The `Pot` class that
`src/poker/game.py` constructs as `Pot(chips, bets, total_raised)` is not
present under `src/` (the checked-in `game_data.py` is an earlier draft
holding an incompatible `Pots` class), so `Pot` and `PlayerData.latest_pot`
are modelled from the spec (§3 data model, §4.2 pot operations), keeping
the calling convention `game.py` relies on. -/

inductive Action
  | CALL
  | RAISE
  | ALL_IN
  | FOLD
deriving DecidableEq, Repr

inductive PlayerState
  | TO_MOVE
  | MOVED
  | ALL_IN
  | FOLDED
  | OUT
deriving DecidableEq, Repr

/-- `PlayerState.active`: true if the player will still make moves. -/
def PlayerState.active : PlayerState → Bool
  | .TO_MOVE => true
  | .MOVED => true
  | _ => false

inductive GameState
  | OVER
  | RUNNING
  | HAND_DONE
deriving DecidableEq, Repr

inductive BettingStage
  | PREFLOP
  | FLOP
  | TURN
  | RIVER
deriving DecidableEq, Repr

structure GameConfig where
  small_blind : Int
  big_blind : Int
  small_bet : Int
  big_bet : Int
  min_bet : Int
  ante_amt : Int
  ante_idx : Option Int
deriving DecidableEq, Repr

/-- `GameConfig.is_limit`. -/
def GameConfig.is_limit (c : GameConfig) : Bool := c.small_bet > 0 || c.big_bet > 0

/-- `GameConfig.nl bb min_bet` (Python default `min_bet=None` picks `bb`). -/
def GameConfig.nl (bb : Int) (minB : Option Int) : GameConfig :=
  ⟨bb / 2, bb, 0, 0, minB.getD bb, 0, none⟩

/-- `GameConfig.fl bb`. -/
def GameConfig.fl (bb : Int) : GameConfig := ⟨bb / 2, bb, bb, bb * 2, 0, 0, none⟩

/-- Modelled from the spec: the pot layer (§3) is
(center chips, bets: player → chips, current raise level); the `Pot`
class itself is missing from `src/` (only its callers are present).
Bets are an insertion-ordered association list, as a Python dict. -/
structure Pot where
  chips : Int
  bets : List (Nat × Int)
  total_raised : Int
deriving DecidableEq, Repr

/-- `bets.get(pl_id, 0)`. -/
def Pot.getBet (p : Pot) (pl : Nat) : Int := (p.bets.lookup pl).getD 0

/-- Dict update `bets[pl] = bets.get(pl, 0) + c`: overwrite in place, or
append a new key at the end. -/
def addBet (pl : Nat) (c : Int) : List (Nat × Int) → List (Nat × Int)
  | [] => [(pl, c)]
  | (q, v) :: t => if q = pl then (q, v + c) :: t else (q, v) :: addBet pl c t

/-- Modelled from the spec: `add(player, chips)` increments the player's
bet and updates the raise level (§4.2). -/
def Pot.add (p : Pot) (pl : Nat) (c : Int) : Pot :=
  { chips := p.chips, bets := addBet pl c p.bets,
    total_raised := max p.total_raised (p.getBet pl + c) }

/-- Dict `pop(pl, ...)`: drop the player's entry. -/
def removeBet (pl : Nat) : List (Nat × Int) → List (Nat × Int)
  | [] => []
  | (q, v) :: t => if q = pl then t else (q, v) :: removeBet pl t

/-- Modelled from the spec: `fold(player)` moves the player's bet (0 if
absent) to the center and removes the entry (§4.2). -/
def Pot.fold (p : Pot) (pl : Nat) : Pot :=
  { chips := p.chips + p.getBet pl, bets := removeBet pl p.bets,
    total_raised := p.total_raised }

/-- Modelled from the spec: `collect_bets()` moves all bets into the
center and resets the raise level (§4.2). -/
def Pot.collect_bets (p : Pot) : Pot :=
  { chips := p.chips + (p.bets.map Prod.snd).sum,
    bets := p.bets.map (fun e => (e.1, 0)), total_raised := 0 }

/-- Modelled from the spec: `chips_to_call(player)` is
raise level − bets[player] (0 if not present) (§4.2, §3). -/
def Pot.chips_to_call (p : Pot) (pl : Nat) : Int := p.total_raised - p.getBet pl

/-- `players()`: the bet keys. -/
def Pot.players (p : Pot) : List Nat := p.bets.map Prod.fst

/-- `total()`: center plus outstanding bets. -/
def Pot.total (p : Pot) : Int := p.chips + (p.bets.map Prod.snd).sum

/-- The raise-level invariant `max(0, max(bets.values()))` from §3, used
for the layers `split` creates. -/
def raiseOf (bets : List (Nat × Int)) : Int := (bets.map Prod.snd).foldr max 0

/-- Modelled from the spec: one capping step plus recursion of `split()`
(§4.2): while bets are unequal, cap every bet at the minimum `m` and
carry each excess into a fresh layer holding only the over-bettors;
fuel decreases per layer (each layer drops the min-bettors). -/
def Pot.splitAux : Nat → Pot → Pot × List Pot
  | 0, p => (p, [])
  | fuel + 1, p =>
    if sameB (p.bets.map Prod.snd) then (p, [])
    else
      let m := ((p.bets.map Prod.snd).min?).getD 0
      let excess := p.bets.filterMap (fun e => if e.2 = m then none else some (e.1, e.2 - m))
      let r := Pot.splitAux fuel ⟨0, excess, raiseOf excess⟩
      (⟨p.chips, p.bets.map (fun e => (e.1, m)),
        raiseOf (p.bets.map (fun e => (e.1, m)))⟩, r.1 :: r.2)

/-- Modelled from the spec: `split() → list<Pot>` returns the newly
created layers, excluding the (mutated, now capped) pot itself, which is
the first component here. -/
def Pot.split (p : Pot) : Pot × List Pot := Pot.splitAux p.bets.length p

/-! ## The game state machine (`src/poker/game.py`)

`Game` carries the fields of the Python class; `_players` is reduced to
the per-player hole cards (`hands`), since the engine only reads
`_players[i].hand` and `len(self._players)`.  `GameHistory` is modelled
as an append-only entry list (the dealing-order index translation inside
`add_action`/`add_result` is not modelled; no claim depends on entry
contents).  Python initialises `sb_id`/`bb_id`/`current_pl_id` to `-1`;
they are `Nat` here, and every claim concerns states after `init_hand`
has set them.  The shuffle is an explicit argument to `initHand`. -/

/-- Modelled from the spec: `PlayerData` (§3) is (chips, state,
latest pot index); the dataclass in the checked-in `game_data.py` draft
lacks `latest_pot`, which `game.py` requires. -/
structure PlayerData where
  chips : Int
  state : PlayerState
  latest_pot : Nat
deriving DecidableEq, Repr

inductive HEntry
  | initH (chips : List Int) (hands : List (List Card))
  | act (stage : BettingStage) (pl : Nat) (a : Action) (amt : Option Int)
  | deal (cards : List Card)
  | endH
  | result (total : Int) (winners : List Nat) (rank : Option Nat)
deriving DecidableEq, Repr

structure Game where
  buy_in : Int
  cfg : GameConfig
  state : GameState
  sb_id : Nat
  bb_id : Nat
  button_id : Nat
  current_pl_id : Nat
  raises_left : Int
  last_raise : Int
  pl_data : List PlayerData
  community : List Card
  pots : List Pot
  hands : List (List Card)
  deck : List Card
  history : List HEntry
deriving DecidableEq, Repr

/-- A Python exception escaping the engine: `InvalidMoveError`, or any
other uncaught error (`IndexError`, `KeyError`, `TypeError`, unbounded
loop/recursion). -/
inductive Err
  | invalidMove (msg : String)
  | crash (msg : String)
deriving DecidableEq, Repr

/-- `len(self._players)`. -/
def Game.numPlayers (g : Game) : Nat := g.hands.length

/-- `in_hand_players()`: indices of players whose state is not OUT. -/
def Game.inHandIds (g : Game) : List Nat :=
  (g.pl_data.enum.filter (fun e => e.2.state ≠ .OUT)).map Prod.fst

/-- `next_player`, with fuel standing for Python's recursion limit: if
every seat is OUT the source recurses forever. -/
def Game.nextPlayerAux (g : Game) (rev : Bool) : Nat → Nat → Option Nat
  | 0, _ => none
  | fuel + 1, pl =>
    if g.numPlayers = 0 then none
    else
      let out := if rev then (pl + (g.numPlayers - 1)) % g.numPlayers
                 else (pl + 1) % g.numPlayers
      match g.pl_data[out]? with
      | none => none
      | some pd => if pd.state = .OUT then g.nextPlayerAux rev fuel out else some out

def Game.nextPlayer (g : Game) (pl : Nat) (rev : Bool) : Option Nat :=
  g.nextPlayerAux rev (g.numPlayers + 1) pl

/-- `Game.chips_to_call`: 0 for non-active players, else the player's
pot's `chips_to_call`. -/
def Game.chipsToCall (g : Game) (pl : Nat) : Option Int :=
  match g.pl_data[pl]? with
  | none => none
  | some pd =>
    if pd.state.active then
      match g.pots[pd.latest_pot]? with
      | none => none
      | some pot => some (pot.chips_to_call pl)
    else some 0

/-- `betting_stage()`: keyed on the community size; other sizes raise
`KeyError`. -/
def Game.bettingStage (g : Game) : Option BettingStage :=
  match g.community.length with
  | 0 => some .PREFLOP
  | 3 => some .FLOP
  | 4 => some .TURN
  | 5 => some .RIVER
  | _ => none

/-- `get_current_limit()`. -/
def Game.getCurrentLimit (g : Game) : Option Int :=
  match g.bettingStage with
  | none => none
  | some s => some (if s = .PREFLOP ∨ s = .FLOP then g.cfg.small_bet else g.cfg.big_bet)

/-- `Game.__bet`: clamp at the player's chips, move them into the
player's latest pot. -/
def Game.betChips (g : Game) (pl : Nat) (chips : Int) : Except Err Game :=
  match g.pl_data[pl]? with
  | none => .error (.crash "player index")
  | some pd =>
    let c := min chips pd.chips
    match updateAt? (fun q => { q with chips := q.chips - c }) g.pl_data pl with
    | none => .error (.crash "player index")
    | some pd' =>
      match updateAt? (fun pot => pot.add pl c) g.pots pd.latest_pot with
      | none => .error (.crash "pot index")
      | some pots' => .ok { g with pl_data := pd', pots := pots' }

/-- `translate_move`: autofill fixed-limit raise amounts, coerce RAISE to
ALL_IN / CALL, expand ALL_IN's amount.  A RAISE with no amount in a
no-limit game is the source's `None + int` `TypeError`. -/
def Game.translateMove (g : Game) (pl : Nat) (a : Action) (amt : Option Int) :
    Except Err (Action × Option Int) :=
  match g.pl_data[pl]? with
  | none => .error (.crash "player index")
  | some pd =>
    if a = .RAISE then
      let amtStep : Except Err Int :=
        match amt with
        | some v => .ok v
        | none =>
          if g.cfg.is_limit then
            match g.getCurrentLimit, g.chipsToCall pl with
            | some lim, some ctc => .ok (if 2 * ctc < lim then lim - ctc else lim)
            | _, _ => .error (.crash "stage")
          else .error (.crash "TypeError amt")
      match amtStep with
      | .error e => .error e
      | .ok v =>
        match g.chipsToCall pl with
        | none => .error (.crash "call")
        | some ctc =>
          if v + ctc = pd.chips then .ok (.ALL_IN, some v)
          else if v = 0 then .ok (.CALL, none)
          else .ok (.RAISE, some v)
    else if a = .ALL_IN then .ok (.ALL_IN, some pd.chips)
    else .ok (a, amt)

/-- `validate_move` (the `(bool, msg)` body; the `check_throw` decorator,
absent from the checked-in `util.py`, raises `InvalidMoveError(msg)` on a
false result when `throws` is set, per its call sites and spec §7). -/
def Game.validateMove (g : Game) (pl : Nat) (a : Action) (amt : Option Int) :
    Except Err (Bool × String) :=
  match g.translateMove pl a amt with
  | .error e => .error e
  | .ok (a', amt') =>
    let neg : Bool := match amt' with
      | some v => decide (v < 0)
      | none => false
    if neg then .ok (false, "Positive value is required for amt.")
    else match g.pl_data[pl]? with
    | none => .error (.crash "player index")
    | some pd =>
      if pd.state ≠ .TO_MOVE then .ok (false, "cannot move in this state")
      else
        let atLimit := g.cfg.is_limit && decide (g.numPlayers > 2) && decide (g.raises_left ≤ 0)
        let condStep : Except Err Bool :=
          if a' = .RAISE then .ok true
          else if a' = .ALL_IN then
            match g.getCurrentLimit with
            | none => .error (.crash "stage")
            | some lim => .ok (decide (2 * amt'.getD 0 ≥ lim))
          else .ok false
        match condStep with
        | .error e => .error e
        | .ok cond =>
          if cond && atLimit then .ok (false, "Cannot raise more than 5 times per round.")
          else match g.chipsToCall pl with
          | none => .error (.crash "call")
          | some toCall =>
            if a' = .CALL ∧ pd.chips < toCall then .ok (false, "Cannot call more than available")
            else if a' = .RAISE then
              match amt' with
              | none => .ok (false, "Expected positive value for move RAISE.")
              | some v =>
                if v < 0 then .ok (false, "Expected positive value for move RAISE.")
                else if pd.chips < toCall + v then .ok (false, "Cannot push in more than available")
                else if v < g.last_raise then .ok (false, "Cannot raise by less than min raise")
                else .ok (true, "")
            else .ok (true, "")

/-- Helper: apply `f` to one player's record, crashing on a bad index. -/
def Game.setPlayer (g : Game) (pl : Nat) (f : PlayerData → PlayerData) : Except Err Game :=
  match updateAt? f g.pl_data pl with
  | none => .error (.crash "player index")
  | some pd' => .ok { g with pl_data := pd' }

/-- The `match action` block of `accept_move`: mutate states/pots, return
the bet to post (`none` for FOLD).  `chips_to_call` for CALL/RAISE is read
before the state change, as in the source. -/
def Game.applyAction (g : Game) (a' : Action) (amt' : Option Int) :
    Except Err (Game × Option Int) :=
  let cur := g.current_pl_id
  match a' with
  | .FOLD =>
    match Game.setPlayer { g with pots := g.pots.map (fun pot => pot.fold cur) } cur
        (fun q => { q with state := .FOLDED }) with
    | .error e => .error e
    | .ok g' => .ok (g', none)
  | .CALL =>
    match g.chipsToCall cur, g.pl_data[cur]? with
    | some ctc, some pd =>
      match Game.setPlayer g cur (fun q => { q with state := .MOVED }) with
      | .error e => .error e
      | .ok g' => .ok (g', some (min ctc pd.chips))
    | _, _ => .error (.crash "call")
  | .RAISE =>
    match amt' with
    | none => .error (.crash "TypeError amt")
    | some v =>
      match g.chipsToCall cur with
      | none => .error (.crash "call")
      | some ctc =>
        match Game.setPlayer g cur (fun q => { q with state := .MOVED }) with
        | .error e => .error e
        | .ok g' => .ok ({ g' with raises_left := g'.raises_left - 1 }, some (v + ctc))
  | .ALL_IN =>
    match g.pl_data[cur]? with
    | none => .error (.crash "player index")
    | some pd =>
      match Game.setPlayer g cur (fun q => { q with state := .ALL_IN }) with
      | .error e => .error e
      | .ok g' =>
        match g'.getCurrentLimit with
        | none => .error (.crash "stage")
        | some lim =>
          .ok (if 2 * pd.chips < lim then { g' with raises_left := g'.raises_left - 1 } else g',
            some pd.chips)

/-- The `if bet is not None` block of `accept_move`: a bet above the
(post-state-change) call amount re-opens betting for every MOVED player
and records `last_raise`; then the chips are posted. -/
def Game.applyBet (g : Game) (bet : Int) : Except Err Game :=
  let cur := g.current_pl_id
  match g.chipsToCall cur with
  | none => .error (.crash "call")
  | some ctc =>
    let g₁ :=
      if bet > ctc then
        { g with last_raise := bet - ctc,
                 pl_data := g.pl_data.enum.map (fun e =>
                   if e.1 = cur then e.2
                   else if e.2.state = .MOVED then { e.2 with state := .TO_MOVE } else e.2) }
      else g
    g₁.betChips cur bet

/-- Stable insertion by ascending rank value, matching Python's stable
`sorted(..., key=lambda x: x[1])` on the showdown rankings. -/
def insertByRank (x : Nat × Nat) : List (Nat × Nat) → List (Nat × Nat)
  | [] => [x]
  | y :: t => if x.2 < y.2 then x :: y :: t else y :: insertByRank x t

def sortByRank : List (Nat × Nat) → List (Nat × Nat)
  | [] => []
  | x :: t => insertByRank x (sortByRank t)

/-- The community top-up loop of `end_hand` (`while len(community) < 5`);
fuel covers the three possible iterations, and an empty deck (which would
loop forever in the source) exhausts it. -/
def Game.dealOutAux : Nat → Game → Except Err Game
  | 0, g => if g.community.length < 5 then .error (.crash "deal loop") else .ok g
  | fuel + 1, g =>
    if g.community.length < 5 then
      match g.bettingStage with
      | none => .error (.crash "stage")
      | some s =>
        let ncards := if s = .PREFLOP then 3 else 1
        let (dealt, deck') := dealCards g.deck ncards
        Game.dealOutAux fuel
          { g with
            community := g.community ++ dealt
            deck := deck'
            history := g.history ++ [HEntry.deal dealt] }
    else .ok g

def Game.dealOut (g : Game) : Except Err Game := Game.dealOutAux 5 g

/-- The per-pot distribution loop of `end_hand`: filter the rankings to
the pot's players, pay each tied winner `total // len(winners)`, and give
any remainder to the first winner at or after the seat left of the button
(the source scans upward without wrapping; finding no winner there is its
unbounded loop / `IndexError`). -/
def Game.distributePots (g : Game) (rankings : List (Nat × Nat)) :
    List Pot → Except Err Game
  | [] => .ok g
  | pot :: rest =>
    let pr := rankings.filter (fun x => pot.players.contains x.1)
    match pr[0]? with
    | none => .error (.crash "empty pot rankings")
    | some best =>
      let winners := (pr.filter (fun x => x.2 = best.2)).map Prod.fst
      let winVal := pot.total / (winners.length : Int)
      let rem := pot.total % (winners.length : Int)
      let g' := { g with history := g.history ++ [HEntry.result pot.total winners (some best.2)] }
      match winners.foldlM (fun (acc : List PlayerData) w =>
          updateAt? (fun q => { q with chips := q.chips + winVal }) acc w) g'.pl_data with
      | none => .error (.crash "player index")
      | some pd₁ =>
        let g'' := { g' with pl_data := pd₁ }
        if rem > 0 then
          match g''.nextPlayer g''.button_id false with
          | none => .error (.crash "next player")
          | some i0 =>
            match ((List.range g''.pl_data.length).filter
                (fun i => decide (i0 ≤ i) && winners.contains i))[0]? with
            | none => .error (.crash "remainder scan")
            | some iw =>
              match updateAt? (fun q => { q with chips := q.chips + rem }) g''.pl_data iw with
              | none => .error (.crash "player index")
              | some pd₂ => Game.distributePots { g'' with pl_data := pd₂ } rankings rest
        else Game.distributePots g'' rankings rest

/-- `end_hand`: the walkover branch hands the sum of all pot totals to the
sole remaining player of the main pot; otherwise the board is dealt out,
every not-folded player's 7 cards are evaluated, and each pot is paid to
its best-ranked participants.  Pots are then reset, the button moves
backwards, and the state becomes HAND_DONE. -/
def Game.endHand (g0 : Game) : Except Err Game :=
  let g := { g0 with history := g0.history ++ [HEntry.endH] }
  match g.pots[0]? with
  | none => .error (.crash "pots empty")
  | some p0 =>
    let afterPay : Except Err Game :=
      if p0.players.length < 2 then
        let winners := p0.players
        let total := (g.pots.map Pot.total).sum
        let g₁ := { g with history := g.history ++ [HEntry.result total winners none] }
        match winners[0]? with
        | none => .error (.crash "winners empty")
        | some w0 =>
          match updateAt? (fun q => { q with chips := q.chips + total }) g₁.pl_data w0 with
          | none => .error (.crash "player index")
          | some pd' => .ok { g₁ with pl_data := pd' }
      else
        match g.dealOut with
        | .error e => .error e
        | .ok g₁ =>
          let rkStep : Except Err (List (Nat × Nat)) :=
            p0.players.foldlM (fun (acc : List (Nat × Nat)) i =>
              match g₁.hands[i]? with
              | none => .error (.crash "player index")
              | some h =>
                match evaluate (g₁.community ++ h) with
                | none => .error (.crash "evaluate miss")
                | some r => .ok (acc ++ [(i, r)])) []
          match rkStep with
          | .error e => .error e
          | .ok rks => g₁.distributePots (sortByRank rks) g₁.pots
    match afterPay with
    | .error e => .error e
    | .ok gf =>
      match gf.nextPlayer gf.button_id true with
      | none => .error (.crash "next player")
      | some nb =>
        .ok { gf with
          pots := [⟨0, [], 0⟩]
          button_id := nb
          state := GameState.HAND_DONE }

/-- `end_round`: split the last pot into side pots, collect every pot's
bets, point the last pot's players at it, give every MOVED player another
turn, reset the round counters, then either finish the hand or deal the
next street. -/
def Game.endRound (g : Game) : Except Err Game :=
  match g.pots.getLast? with
  | none => .error (.crash "pots empty")
  | some last =>
    let (self', newPots) := last.split
    let pots₂ := ((g.pots.dropLast ++ [self']) ++ newPots).map Pot.collect_bets
    match pots₂.getLast? with
    | none => .error (.crash "pots empty")
    | some lastPot =>
      let L := pots₂.length - 1
      match lastPot.players.foldlM (fun (acc : List PlayerData) pl =>
          updateAt? (fun q => { q with latest_pot := L }) acc pl) g.pl_data with
      | none => .error (.crash "player index")
      | some pd₁ =>
        let pd₂ := pd₁.map (fun q => if q.state = .MOVED then { q with state := .TO_MOVE } else q)
        let tmc := (pd₂.filter (fun q => q.state = .TO_MOVE)).length
        let gMid := { g with pots := pots₂, pl_data := pd₂ }
        match gMid.nextPlayer g.bb_id false with
        | none => .error (.crash "next player")
        | some cur =>
          let g₃ := { gMid with
            current_pl_id := cur
            raises_left := 5
            last_raise := g.cfg.min_bet }
          if tmc < 2 then g₃.endHand
          else
            match g₃.bettingStage with
            | none => .error (.crash "stage")
            | some s =>
              if s = .RIVER then g₃.endHand
              else
                let ncards := if s = .PREFLOP then 3 else 1
                let (dealt, deck') := dealCards g₃.deck ncards
                .ok { g₃ with
                  community := g₃.community ++ dealt
                  deck := deck'
                  history := g₃.history ++ [HEntry.deal dealt] }

/-- `itertools`-style integer range for `range(a, b)` on ints. -/
def rangeInt (a b : Int) : List Int := (List.range (b - a).toNat).map (fun i => a + i)

/-- Deal two hole cards to each player in seat order. -/
def Game.dealHandsAux : Nat → List Card → (List (List Card) × List Card)
  | 0, deck => ([], deck)
  | n + 1, deck =>
    let (h, deck') := dealCards deck 2
    let (rest, deck'') := Game.dealHandsAux n deck'
    (h :: rest, deck'')

/-- One ante: clamped at the player's chips and added straight to the pot
center (not to the bets). -/
def Game.anteOne (g : Game) (i : Nat) : Except Err Game :=
  match g.pl_data[i]? with
  | none => .error (.crash "player index")
  | some pd =>
    let c := min g.cfg.ante_amt pd.chips
    match updateAt? (fun q => { q with chips := q.chips - c }) g.pl_data i with
    | none => .error (.crash "player index")
    | some pd' =>
      match updateAt? (fun pot => { pot with chips := pot.chips + c }) g.pots pd.latest_pot with
      | none => .error (.crash "pot index")
      | some pots' => .ok { g with pl_data := pd', pots := pots' }

/-- `accept_move`: validate and execute the current player's move when
they are active (silently skipping otherwise), advance the seat pointer,
and close the betting round when nobody is left TO_MOVE or only one
player remains unfolded. -/
def Game.acceptMove (g : Game) (a : Action) (amt : Option Int) : Except Err Game :=
  match g.pl_data[g.current_pl_id]? with
  | none => .error (.crash "player index")
  | some cpd =>
    let afterIf : Except Err Game :=
      if cpd.state.active then
        match g.validateMove g.current_pl_id a amt with
        | .error e => .error e
        | .ok (ok, msg) =>
          if ok = false then .error (.invalidMove msg)
          else
            match g.translateMove g.current_pl_id a amt with
            | .error e => .error e
            | .ok (a', amt') =>
              match g.applyAction a' amt' with
              | .error e => .error e
              | .ok (g', betOpt) =>
                let withBet : Except Err Game :=
                  match betOpt with
                  | none => .ok g'
                  | some bet => g'.applyBet bet
                match withBet with
                | .error e => .error e
                | .ok g'' =>
                  match g''.bettingStage with
                  | none => .error (.crash "stage")
                  | some stage =>
                    .ok { g'' with history :=
                      g''.history ++ [HEntry.act stage g''.current_pl_id a' amt'] }
      else .ok g
    match afterIf with
    | .error e => .error e
    | .ok g₁ =>
      match g₁.nextPlayer g₁.current_pl_id false with
      | none => .error (.crash "next player")
      | some np =>
        let g₂ := { g₁ with current_pl_id := np }
        if g₂.pl_data.all (fun pd => pd.state ≠ .TO_MOVE) then g₂.endRound
        else
          match g₂.pots[0]? with
          | none => .error (.crash "pots empty")
          | some pot0 =>
            if pot0.players.length = 1 then g₂.endRound else .ok g₂

/-- `get_moves`, as the list an exhausted iterator yields. -/
def Game.getMoves (g : Game) (pl : Nat) : Option (List (Action × Option Int)) :=
  match g.pl_data[pl]? with
  | none => none
  | some pd =>
    if pd.state.active = false ∨ g.state ≠ .RUNNING then some []
    else
      match g.chipsToCall pl with
      | none => none
      | some toCall =>
        let free := pd.chips - toCall
        if free < 0 then some [(.FOLD, none), (.ALL_IN, none)]
        else if free = 0 then some [(.FOLD, none), (.CALL, none)]
        else if g.cfg.is_limit then
          match g.getCurrentLimit with
          | none => none
          | some lim =>
            let ra := if 2 * toCall < lim then lim - toCall else lim
            if g.numPlayers = 2 ∨ g.raises_left > 0 then
              if free ≤ ra then some [(.FOLD, none), (.CALL, none), (.ALL_IN, none)]
              else some [(.FOLD, none), (.CALL, none), (.RAISE, some ra)]
            else if 2 * free < lim then some [(.FOLD, none), (.CALL, none), (.ALL_IN, none)]
            else some [(.FOLD, none), (.CALL, none)]
        else
          some ([(.FOLD, none), (.CALL, none)] ++
            (rangeInt (max 1 g.last_raise) free).map (fun i => (Action.RAISE, some i)) ++
            [(.ALL_IN, none)])

/-- `init_hand`, with the post-shuffle deck order supplied explicitly. -/
def Game.initHand (g : Game) (shuffled : List Card) : Except Err Game :=
  if (g.pl_data.filter (fun pd => pd.state ≠ .OUT)).length < 2 then
    .ok { g with state := .OVER }
  else
    let pd₁ := g.pl_data.map (fun q =>
      if q.chips = 0 then { q with state := .OUT } else { q with state := .TO_MOVE })
    let ids := (pd₁.enum.filter (fun e => e.2.state ≠ .OUT)).map Prod.fst
    let pot0 : Pot := ⟨0, ids.map (fun i => (i, 0)), 0⟩
    let (handsL, deck₁) := Game.dealHandsAux g.numPlayers shuffled
    let gA := { g with
      state := GameState.RUNNING
      pl_data := pd₁
      pots := [pot0]
      community := []
      hands := handsL
      deck := deck₁
      history := g.history ++ [HEntry.initH (pd₁.map (fun (q : PlayerData) => q.chips)) handsL] }
    let sbStep : Except Err Nat :=
      if ids.length = 2 then .ok g.button_id
      else
        match gA.nextPlayer g.button_id false with
        | none => .error (.crash "next player")
        | some sb => .ok sb
    match sbStep with
    | .error e => .error e
    | .ok sb =>
      match gA.nextPlayer sb false with
      | none => .error (.crash "next player")
      | some bb =>
        let gB := { gA with sb_id := sb, bb_id := bb }
        match gB.betChips sb g.cfg.small_blind with
        | .error e => .error e
        | .ok gC =>
          match gC.betChips bb g.cfg.big_blind with
          | .error e => .error e
          | .ok gD =>
            let anteStep : Except Err Game :=
              if g.cfg.ante_amt > 0 then
                let plsStep : Except Err (List Nat) :=
                  match g.cfg.ante_idx with
                  | none => .ok gD.inHandIds
                  | some 1 => .ok [bb]
                  | some (-1) => .ok [g.button_id]
                  | some _ => .error (.crash "NameError ante_players")
                match plsStep with
                | .error e => .error e
                | .ok pls => pls.foldlM (fun (gx : Game) i => gx.anteOne i) gD
              else .ok gD
            match anteStep with
            | .error e => .error e
            | .ok gE =>
              match gE.pots.getLast? with
              | none => .error (.crash "pots empty")
              | some lp =>
                let gF := { gE with
                  pots := gE.pots.dropLast ++ [{ lp with total_raised := g.cfg.big_blind }]
                  raises_left := 5
                  last_raise := g.cfg.min_bet }
                match gF.nextPlayer bb false with
                | none => .error (.crash "next player")
                | some cur => .ok { gF with current_pl_id := cur }

/-- A freshly constructed `Game` (Python seats the sentinel indices at
`-1`; they are 0 here and are assigned before use by `init_hand`). -/
def Game.mk0 (buy_in : Int) (cfg : GameConfig) : Game :=
  { buy_in := buy_in, cfg := cfg, state := .HAND_DONE, sb_id := 0, bb_id := 0,
    button_id := 0, current_pl_id := 0, raises_left := -1, last_raise := cfg.min_bet,
    pl_data := [], community := [], pots := [⟨0, [], 0⟩], hands := [], deck := deckStd,
    history := [] }

/-- `add_player`. -/
def Game.addPlayer (g : Game) : Game :=
  { g with pl_data := g.pl_data ++ [⟨g.buy_in, .TO_MOVE, g.pots.length - 1⟩],
           hands := g.hands ++ [[]] }

/-- A fresh game with `n` players, each bought in for `buy_in`. -/
def freshGame (buy_in : Int) (cfg : GameConfig) (n : Nat) : Game :=
  (List.range n).foldl (fun g _ => g.addPlayer) (Game.mk0 buy_in cfg)

/-- A sequence of `accept_move` calls. -/
def Game.runMoves (g : Game) : List (Action × Option Int) → Except Err Game
  | [] => .ok g
  | m :: ms =>
    match g.acceptMove m.1 m.2 with
    | .error e => .error e
    | .ok g' => g'.runMoves ms


/-! ## Chip conservation (claim C1)

`money` is the sum of all player stacks plus the sum of all pot totals.
Every lemma below shows one engine operation preserves it whenever the
operation succeeds. -/

def Game.chipsTotal (g : Game) : Int := (g.pl_data.map (fun q => q.chips)).sum

def Game.potsTotal (g : Game) : Int := (g.pots.map Pot.total).sum

def Game.money (g : Game) : Int := g.chipsTotal + g.potsTotal

theorem addBet_sum (pl : Nat) (c : Int) :
    ∀ l : List (Nat × Int),
      ((addBet pl c l).map Prod.snd).sum = (l.map Prod.snd).sum + c := by
  intro l
  induction l with
  | nil => simp [addBet]
  | cons e t ih =>
    obtain ⟨q, v⟩ := e
    by_cases hq : q = pl
    · simp [addBet, hq]
      ring
    · simp [addBet, hq, ih]
      ring

theorem Pot.add_total (p : Pot) (pl : Nat) (c : Int) : (p.add pl c).total = p.total + c := by
  simp [Pot.add, Pot.total, addBet_sum]
  ring

theorem removeBet_sum (pl : Nat) :
    ∀ l : List (Nat × Int),
      ((removeBet pl l).map Prod.snd).sum = (l.map Prod.snd).sum - ((l.lookup pl).getD 0) := by
  intro l
  induction l with
  | nil => simp [removeBet]
  | cons e t ih =>
    obtain ⟨q, v⟩ := e
    by_cases hq : q = pl
    · subst hq
      simp [removeBet, List.lookup]
    · have hq' : (pl == q) = false := beq_eq_false_iff_ne.mpr (Ne.symm hq)
      simp only [removeBet, if_neg hq, List.map_cons, List.sum_cons, ih, List.lookup, hq']
      ring

theorem Pot.fold_total (p : Pot) (pl : Nat) : (p.fold pl).total = p.total := by
  simp only [Pot.fold, Pot.total, removeBet_sum, Pot.getBet]
  ring

theorem zero_bets_sum : ∀ l : List (Nat × Int),
    ((l.map (fun e => (e.1, (0 : Int)))).map Prod.snd).sum = 0 := by
  intro l
  induction l with
  | nil => rfl
  | cons e t ih =>
    simp only [List.map_cons, List.sum_cons, ih]
    simp

theorem Pot.collect_total (p : Pot) : p.collect_bets.total = p.total := by
  simp only [Pot.collect_bets, Pot.total, zero_bets_sum]
  ring

theorem const_bets_sum (m : Int) : ∀ l : List (Nat × Int),
    ((l.map (fun e => (e.1, m))).map Prod.snd).sum = l.length * m := by
  intro l
  induction l with
  | nil => simp
  | cons e t ih =>
    simp only [List.map_cons, List.sum_cons, ih, List.length_cons]
    push_cast
    ring

theorem excess_sum (m : Int) : ∀ l : List (Nat × Int),
    ((l.filterMap fun e => if e.2 = m then none else some (e.1, e.2 - m)).map Prod.snd).sum
      = (l.map Prod.snd).sum - m * l.length := by
  intro l
  induction l with
  | nil => simp
  | cons e t ih =>
    obtain ⟨q, v⟩ := e
    by_cases hv : v = m
    · simp [hv, ih]
      ring
    · simp [hv, ih]
      ring

theorem Pot.splitAux_total : ∀ (fuel : Nat) (p : Pot),
    (Pot.splitAux fuel p).1.total + (((Pot.splitAux fuel p).2).map Pot.total).sum = p.total := by
  intro fuel
  induction fuel with
  | zero => intro p; simp [Pot.splitAux]
  | succ n ih =>
    intro p
    by_cases hs : sameB (p.bets.map Prod.snd) = true
    · simp [Pot.splitAux, hs]
    · simp only [Pot.splitAux, if_neg hs]
      set m := ((p.bets.map Prod.snd).min?).getD 0 with hm
      set ex := p.bets.filterMap
        (fun e => if e.2 = m then none else some (e.1, e.2 - m)) with hex
      simp only [List.map_cons, List.sum_cons]
      have h1 : (Pot.splitAux n ⟨0, ex, raiseOf ex⟩).1.total +
          ((Pot.splitAux n ⟨0, ex, raiseOf ex⟩).2.map Pot.total).sum
            = (ex.map Prod.snd).sum := by
      
        rw [ih ⟨0, ex, raiseOf ex⟩]
        simp [Pot.total]
      have h2 : (ex.map Prod.snd).sum = (p.bets.map Prod.snd).sum - m * p.bets.length := by
        rw [hex]
        exact excess_sum m p.bets
      have h3 : (Pot.total ⟨p.chips, p.bets.map (fun e => (e.1, m)),
          raiseOf (p.bets.map (fun e => (e.1, m)))⟩) = p.chips + p.bets.length * m := by
        simp only [Pot.total, const_bets_sum]
      rw [← add_assoc] at *
      rw [show (Pot.total ⟨p.chips, p.bets.map (fun e => (e.1, m)),
          raiseOf (p.bets.map (fun e => (e.1, m)))⟩ : Int) +
          (Pot.splitAux n ⟨0, ex, raiseOf ex⟩).1.total +
          ((Pot.splitAux n ⟨0, ex, raiseOf ex⟩).2.map Pot.total).sum
          = Pot.total ⟨p.chips, p.bets.map (fun e => (e.1, m)),
            raiseOf (p.bets.map (fun e => (e.1, m)))⟩ +
          ((Pot.splitAux n ⟨0, ex, raiseOf ex⟩).1.total +
          ((Pot.splitAux n ⟨0, ex, raiseOf ex⟩).2.map Pot.total).sum) from by ring]
      rw [h1, h2, h3]
      simp only [Pot.total]
      ring

theorem Pot.split_total (p : Pot) :
    (p.split).1.total + ((p.split).2.map Pot.total).sum = p.total := by
  exact Pot.splitAux_total p.bets.length p

theorem betChips_money {g : Game} {pl : Nat} {c : Int} {g' : Game}
    (h : g.betChips pl c = .ok g') : g'.money = g.money := by
  unfold Game.betChips at h
  split at h
  · exact absurd h (by simp)
  next pd hpd =>
    dsimp only [] at h
    split at h
    · exact absurd h (by simp)
    next pd' hu1 =>
      split at h
      · exact absurd h (by simp)
      next pots' hu2 =>
        simp only [Except.ok.injEq] at h
        subst h
        obtain ⟨x, hx, rfl⟩ := updateAt?_spec hu1
        obtain ⟨pt, hpt, rfl⟩ := updateAt?_spec hu2
        rw [hpd] at hx
        cases hx
        have hc := sum_map_set (fun q => q.chips) g.pl_data pl
          ⟨pd.chips - min c pd.chips, pd.state, pd.latest_pot⟩ pd hpd
        have hp := sum_map_set Pot.total g.pots pd.latest_pot (pt.add pl (min c pd.chips)) pt hpt
        show ((g.pl_data.set pl _).map _).sum + ((g.pots.set _ _).map _).sum = _
        rw [hc, hp, Pot.add_total]
        show _ = (g.pl_data.map fun q => q.chips).sum + (g.pots.map Pot.total).sum
        ring

theorem anteOne_money {g : Game} {i : Nat} {g' : Game}
    (h : g.anteOne i = .ok g') : g'.money = g.money := by
  unfold Game.anteOne at h
  split at h
  · exact absurd h (by simp)
  next pd hpd =>
    dsimp only [] at h
    split at h
    · exact absurd h (by simp)
    next pd' hu1 =>
      split at h
      · exact absurd h (by simp)
      next pots' hu2 =>
        simp only [Except.ok.injEq] at h
        subst h
        obtain ⟨x, hx, rfl⟩ := updateAt?_spec hu1
        obtain ⟨pt, hpt, rfl⟩ := updateAt?_spec hu2
        rw [hpd] at hx
        cases hx
        have hc := sum_map_set (fun q => q.chips) g.pl_data i
          ⟨pd.chips - min g.cfg.ante_amt pd.chips, pd.state, pd.latest_pot⟩ pd hpd
        have hp := sum_map_set Pot.total g.pots pd.latest_pot
          { pt with chips := pt.chips + min g.cfg.ante_amt pd.chips } pt hpt
        show ((g.pl_data.set i _).map _).sum + ((g.pots.set _ _).map _).sum = _
        rw [hc, hp]
        show _ = (g.pl_data.map fun q => q.chips).sum + (g.pots.map Pot.total).sum
        simp only [Pot.total]
        ring

theorem setPlayer_money {g : Game} {pl : Nat} {f : PlayerData → PlayerData} {g' : Game}
    (h : g.setPlayer pl f = .ok g') (hf : ∀ q, (f q).chips = q.chips) :
    g'.money = g.money ∧ g'.pots = g.pots := by
  unfold Game.setPlayer at h
  split at h
  · exact absurd h (by simp)
  next pd' hu =>
    simp only [Except.ok.injEq] at h
    subst h
    obtain ⟨x, hx, rfl⟩ := updateAt?_spec hu
    refine ⟨?_, rfl⟩
    have hc := sum_map_set (fun q => q.chips) g.pl_data pl (f x) x hx
    show ((g.pl_data.set pl (f x)).map _).sum + _ = _
    rw [hc]
    show (g.pl_data.map fun q => q.chips).sum - x.chips + (f x).chips
        + (g.pots.map Pot.total).sum
      = (g.pl_data.map fun q => q.chips).sum + (g.pots.map Pot.total).sum
    rw [hf]
    ring

theorem potsTotal_map_fold (g : Game) (cur : Nat) :
    ((g.pots.map (fun pot => pot.fold cur)).map Pot.total).sum = (g.pots.map Pot.total).sum := by
  rw [List.map_map]
  exact congrArg List.sum (List.map_congr_left (fun p _ => Pot.fold_total p cur))

theorem chipsSum_enum_map {f : Nat × PlayerData → PlayerData}
    (hf : ∀ e, (f e).chips = e.2.chips) (l : List PlayerData) :
    ((l.enum.map f).map (fun q => q.chips)).sum = (l.map fun q => q.chips).sum := by
  rw [List.map_map]
  have h1 : (fun q => q.chips) ∘ f = fun e => (Prod.snd e).chips := funext hf
  rw [h1]
  have h2 : (fun e => (Prod.snd (e : Nat × PlayerData)).chips)
      = (fun q : PlayerData => q.chips) ∘ Prod.snd := rfl
  rw [h2, ← List.map_map, List.enum_map_snd]

theorem money_enum_map (g g' : Game) (f : Nat × PlayerData → PlayerData)
    (hpl : g'.pl_data = g.pl_data.enum.map f) (hpots : g'.pots = g.pots)
    (hf : ∀ e, (f e).chips = e.2.chips) : g'.money = g.money := by
  show (g'.pl_data.map _).sum + (g'.pots.map _).sum = _
  rw [hpl, hpots, chipsSum_enum_map hf]
  rfl

theorem applyAction_money {g : Game} {a : Action} {amt : Option Int} {g' : Game} {b : Option Int}
    (h : g.applyAction a amt = .ok (g', b)) : g'.money = g.money := by
  unfold Game.applyAction at h
  cases a with
  | FOLD =>
    dsimp only [] at h
    split at h
    · exact absurd h (by simp)
    next gf hsp =>
      simp only [Except.ok.injEq, Prod.mk.injEq] at h
      obtain ⟨rfl, -⟩ := h
      have hm := (setPlayer_money hsp (fun q => rfl)).1
      rw [hm]
      show _ + ((g.pots.map _).map Pot.total).sum = _
      rw [potsTotal_map_fold]
      rfl
  | CALL =>
    dsimp only [] at h
    split at h
    next ctc pd hctc hpd =>
      split at h
      · exact absurd h (by simp)
      next g₂ hsp =>
        simp only [Except.ok.injEq, Prod.mk.injEq] at h
        obtain ⟨rfl, -⟩ := h
        exact (setPlayer_money hsp (fun q => rfl)).1
    · exact absurd h (by simp)
  | RAISE =>
    dsimp only [] at h
    split at h
    · exact absurd h (by simp)
    next v =>
      split at h
      · exact absurd h (by simp)
      next ctc hctc =>
        split at h
        · exact absurd h (by simp)
        next g₂ hsp =>
          simp only [Except.ok.injEq, Prod.mk.injEq] at h
          obtain ⟨rfl, -⟩ := h
          exact (setPlayer_money hsp (fun q => rfl)).1
  | ALL_IN =>
    dsimp only [] at h
    split at h
    · exact absurd h (by simp)
    next pd hpd =>
      split at h
      · exact absurd h (by simp)
      next g₂ hsp =>
        split at h
        · exact absurd h (by simp)
        next lim hlim =>
          simp only [Except.ok.injEq, Prod.mk.injEq] at h
          obtain ⟨h1, -⟩ := h
          have hm := (setPlayer_money hsp (fun q => rfl)).1
          by_cases hb : 2 * pd.chips < lim
          · rw [if_pos hb] at h1
            subst h1
            exact hm
          · rw [if_neg hb] at h1
            subst h1
            exact hm

theorem applyBet_money {g : Game} {bet : Int} {g' : Game}
    (h : g.applyBet bet = .ok g') : g'.money = g.money := by
  unfold Game.applyBet at h
  dsimp only [] at h
  split at h
  · exact absurd h (by simp)
  next ctc hctc =>
    by_cases hb : bet > ctc
    · rw [if_pos hb] at h
      rw [betChips_money h]
      refine money_enum_map g _ _ rfl rfl (fun e => ?_)
      dsimp only []
      split
      · rfl
      · split <;> rfl
    · rw [if_neg hb] at h
      exact betChips_money h

theorem foldlM_chips_add (v : Int) :
    ∀ (ids : List Nat) (pd pd' : List PlayerData),
      ids.foldlM (fun (acc : List PlayerData) w =>
        updateAt? (fun q => { q with chips := q.chips + v }) acc w) pd = some pd' →
      (pd'.map fun q => q.chips).sum = (pd.map fun q => q.chips).sum + ids.length * v := by
  intro ids
  induction ids with
  | nil =>
    intro pd pd' h
    simp only [List.foldlM_nil, Option.pure_def, Option.some.injEq] at h
    subst h
    simp
  | cons i t ih =>
    intro pd pd' h
    rw [List.foldlM_cons] at h
    cases hu : updateAt? (fun q => { q with chips := q.chips + v }) pd i with
    | none => rw [hu] at h; exact absurd h (by simp)
    | some pd₁ =>
      rw [hu] at h
      simp only [Option.bind_eq_bind, Option.some_bind] at h
      obtain ⟨x, hx, rfl⟩ := updateAt?_spec hu
      have hs := sum_map_set (fun q => q.chips) pd i
        ⟨x.chips + v, x.state, x.latest_pot⟩ x hx
      have := ih _ _ h
      rw [this, hs]
      show (pd.map fun q => q.chips).sum - x.chips + (x.chips + v) + _ = _
      simp only [List.length_cons]
      push_cast
      ring

theorem foldlM_chips_keep {f : PlayerData → PlayerData} :
    ∀ (ids : List Nat) (pd pd' : List PlayerData),
      ids.foldlM (fun (acc : List PlayerData) w => updateAt? f acc w) pd = some pd' →
      (∀ q, (f q).chips = q.chips) →
      (pd'.map fun q => q.chips).sum = (pd.map fun q => q.chips).sum := by
  intro ids
  induction ids with
  | nil =>
    intro pd pd' h hf
    simp only [List.foldlM_nil, Option.pure_def, Option.some.injEq] at h
    subst h
    rfl
  | cons i t ih =>
    intro pd pd' h hf
    rw [List.foldlM_cons] at h
    cases hu : updateAt? f pd i with
    | none => rw [hu] at h; exact absurd h (by simp)
    | some pd₁ =>
      rw [hu] at h
      simp only [Option.bind_eq_bind, Option.some_bind] at h
      obtain ⟨x, hx, rfl⟩ := updateAt?_spec hu
      have hs := sum_map_set (fun q => q.chips) pd i (f x) x hx
      have := ih _ _ h hf
      rw [this, hs]
      show (pd.map fun q => q.chips).sum - x.chips + (f x).chips = _
      rw [hf]
      ring

theorem dealOutAux_pp : ∀ (fuel : Nat) (g g' : Game),
    Game.dealOutAux fuel g = .ok g' → g'.pl_data = g.pl_data ∧ g'.pots = g.pots := by
  intro fuel
  induction fuel with
  | zero =>
    intro g g' h
    unfold Game.dealOutAux at h
    split at h
    · exact absurd h (by simp)
    · simp only [Except.ok.injEq] at h
      subst h
      exact ⟨rfl, rfl⟩
  | succ n ih =>
    intro g g' h
    unfold Game.dealOutAux at h
    split at h
    · split at h
      · exact absurd h (by simp)
      · dsimp only [] at h
        split at h
        · have hp := ih _ _ h
          exact ⟨hp.1, hp.2⟩
        · have hp := ih _ _ h
          exact ⟨hp.1, hp.2⟩
    · simp only [Except.ok.injEq] at h
      subst h
      exact ⟨rfl, rfl⟩

theorem distributePots_money :
    ∀ (pots : List Pot) (g : Game) (rk : List (Nat × Nat)) (g' : Game),
      g.distributePots rk pots = .ok g' →
      g'.chipsTotal = g.chipsTotal + (pots.map Pot.total).sum ∧ g'.pots = g.pots := by
  intro pots
  induction pots with
  | nil =>
    intro g rk g' h
    unfold Game.distributePots at h
    simp only [Except.ok.injEq] at h
    subst h
    simp
  | cons pot rest ih =>
    intro g rk g' h
    unfold Game.distributePots at h
    dsimp only [] at h
    generalize hpr : rk.filter (fun x => pot.players.contains x.1) = pr at h
    split at h
    · exact absurd h (by simp)
    next best hbest =>
      generalize hwn : (pr.filter (fun x => x.2 = best.2)).map Prod.fst = winners at h
      have hbm : best ∈ pr := List.getElem?_mem hbest
      have hwmem : best.1 ∈ winners := by
        rw [← hwn]
        exact List.mem_map_of_mem Prod.fst (List.mem_filter.mpr ⟨hbm, by simp⟩)
      have hlen : 0 < winners.length := List.length_pos.mpr (List.ne_nil_of_mem hwmem)
      have hlz : (winners.length : Int) ≠ 0 := by exact_mod_cast hlen.ne'
      have hdm := Int.ediv_add_emod pot.total (winners.length : Int)
      split at h
      · exact absurd h (by simp)
      next pd₁ hfold =>
        have hsum₁ := foldlM_chips_add (pot.total / (winners.length : Int)) winners _ _ hfold
        split at h
        next hrem =>
          split at h
          · exact absurd h (by simp)
          next i0 hnp =>
            split at h
            · exact absurd h (by simp)
            next iw hscan =>
              split at h
              · exact absurd h (by simp)
              next pd₂ hupd =>
                have hp := ih _ _ _ h
                obtain ⟨x, hx, rfl⟩ := updateAt?_spec hupd
                have hs := sum_map_set (fun q => q.chips) pd₁ iw
                  ⟨x.chips + pot.total % (winners.length : Int), x.state, x.latest_pot⟩ x hx
                have hs₂ : (List.map (fun q => q.chips) (pd₁.set iw
                      { chips := x.chips + pot.total % (winners.length : Int)
                        state := x.state
                        latest_pot := x.latest_pot })).sum
                    = (List.map (fun q => q.chips) pd₁).sum - x.chips
                      + (x.chips + pot.total % (winners.length : Int)) := hs
                refine ⟨?_, hp.2⟩
                simp only [Game.chipsTotal] at hp ⊢
                simp only [List.map_cons, List.sum_cons]
                linarith [hsum₁, hs₂, hdm, hp.1]
        next hrem =>
          have hp := ih _ _ _ h
          refine ⟨?_, hp.2⟩
          have hrem0 : pot.total % (winners.length : Int) = 0 :=
            le_antisymm (not_lt.mp hrem) (Int.emod_nonneg _ hlz)
          simp only [Game.chipsTotal] at hp ⊢
          simp only [List.map_cons, List.sum_cons]
          linarith [hsum₁, hdm, hrem0, hp.1]

theorem endHand_money {g0 g' : Game} (h : g0.endHand = .ok g') : g'.money = g0.money := by
  unfold Game.endHand at h
  dsimp only [] at h
  split at h
  · exact absurd h (by simp)
  next p0 hp0 =>
    split at h
    · exact absurd h (by simp)
    next gf hAP =>
      split at h
      · exact absurd h (by simp)
      next nb hnb =>
        simp only [Except.ok.injEq] at h
        subst h
        show gf.chipsTotal + ([(⟨0, [], 0⟩ : Pot)].map Pot.total).sum = g0.money
        have hz : ([(⟨0, [], 0⟩ : Pot)].map Pot.total).sum = 0 := by
          simp [Pot.total]
        rw [hz]
        by_cases hlen : p0.players.length < 2
        · rw [if_pos hlen] at hAP
          split at hAP
          · exact absurd hAP (by simp)
          next w0 hw0 =>
            split at hAP
            · exact absurd hAP (by simp)
            next pd' hupd =>
              simp only [Except.ok.injEq] at hAP
              subst hAP
              obtain ⟨x, hx, rfl⟩ := updateAt?_spec hupd
              have hs := sum_map_set (fun q => q.chips) g0.pl_data w0
                ⟨x.chips + (g0.pots.map Pot.total).sum, x.state, x.latest_pot⟩ x hx
              have hs₂ : (List.map (fun q => q.chips) (g0.pl_data.set w0
                    { chips := x.chips + (g0.pots.map Pot.total).sum
                      state := x.state
                      latest_pot := x.latest_pot })).sum
                  = (List.map (fun q => q.chips) g0.pl_data).sum - x.chips
                    + (x.chips + (g0.pots.map Pot.total).sum) := hs
              show (List.map (fun q => q.chips) (g0.pl_data.set w0
                    { chips := x.chips + (g0.pots.map Pot.total).sum
                      state := x.state
                      latest_pot := x.latest_pot })).sum + 0 = g0.money
              rw [hs₂]
              show _ = (g0.pl_data.map fun q => q.chips).sum + (g0.pots.map Pot.total).sum
              ring
        · rw [if_neg hlen] at hAP
          split at hAP
          · exact absurd hAP (by simp)
          next g₁ hdo =>
            split at hAP
            · exact absurd hAP (by simp)
            next rks hrk =>
              have hpp := dealOutAux_pp 5 _ _ hdo
              have hdist := distributePots_money _ _ _ _ hAP
              show gf.chipsTotal + 0 = g0.money
              rw [hdist.1]
              have h1 : g₁.chipsTotal = g0.chipsTotal := by
                show (g₁.pl_data.map fun q => q.chips).sum = _
                rw [hpp.1]
                rfl
              have h2 : (g₁.pots.map Pot.total).sum = g0.potsTotal := by
                rw [hpp.2]
                rfl
              rw [h1, h2]
              show g0.chipsTotal + g0.potsTotal + 0 = _
              show _ = g0.chipsTotal + g0.potsTotal
              ring

theorem chipsSum_map (f : PlayerData → PlayerData) (l : List PlayerData)
    (hf : ∀ q, (f q).chips = q.chips) :
    ((l.map f).map (fun q => q.chips)).sum = (l.map fun q => q.chips).sum := by
  rw [List.map_map]
  exact congrArg List.sum (List.map_congr_left (fun q _ => hf q))

theorem money_parts {g : Game} (g' : Game)
    (hpl : (g'.pl_data.map (fun q => q.chips)).sum = (g.pl_data.map (fun q => q.chips)).sum)
    (hpt : (g'.pots.map Pot.total).sum = (g.pots.map Pot.total).sum) :
    g'.money = g.money := by
  show (g'.pl_data.map _).sum + (g'.pots.map _).sum = _
  rw [hpl, hpt]
  rfl

theorem potsTotal_round (pots : List Pot) (last : Pot) (hl : pots.getLast? = some last) :
    ((((pots.dropLast ++ [last.split.1]) ++ last.split.2).map Pot.collect_bets).map
      Pot.total).sum = (pots.map Pot.total).sum := by
  have hne : pots ≠ [] := by rintro rfl; simp at hl
  rw [List.getLast?_eq_getLast _ hne, Option.some.injEq] at hl
  subst hl
  conv_rhs => rw [← List.dropLast_append_getLast hne]
  rw [List.map_map]
  have hco : Pot.total ∘ Pot.collect_bets = Pot.total := funext fun p => Pot.collect_total p
  rw [hco]
  simp only [List.map_append, List.sum_append, List.map_cons, List.map_nil, List.sum_cons,
    List.sum_nil]
  have := Pot.split_total (pots.getLast hne)
  linarith

theorem endRound_money {g g' : Game} (h : g.endRound = .ok g') : g'.money = g.money := by
  unfold Game.endRound at h
  dsimp only [] at h
  split at h
  · exact absurd h (by simp)
  next last hlast =>
    split at h
    · exact absurd h (by simp)
    next lastPot hlp =>
      split at h
      · exact absurd h (by simp)
      next pd₁ hfold =>
        split at h
        · exact absurd h (by simp)
        next cur hnp =>
          have hc1 := foldlM_chips_keep lastPot.players _ _ hfold (fun q => rfl)
          have hc2 := chipsSum_map
            (fun q => if q.state = .MOVED then { q with state := .TO_MOVE } else q) pd₁
            (fun q => by dsimp only []; split <;> rfl)
          have hpt := potsTotal_round g.pots last hlast
          have hchips :
              ((pd₁.map (fun q =>
                  if q.state = .MOVED then { q with state := .TO_MOVE } else q)).map
                (fun q => q.chips)).sum = (g.pl_data.map (fun q => q.chips)).sum := by
            rw [hc2, hc1]
          split at h
          · rw [endHand_money h]
            exact money_parts _ hchips hpt
          · split at h
            · exact absurd h (by simp)
            next s hs =>
              split at h
              · rw [endHand_money h]
                exact money_parts _ hchips hpt
              · simp only [Except.ok.injEq] at h
                subst h
                exact money_parts _ hchips hpt

theorem acceptMove_money {g : Game} {a : Action} {amt : Option Int} {g' : Game}
    (h : g.acceptMove a amt = .ok g') : g'.money = g.money := by
  unfold Game.acceptMove at h
  dsimp only [] at h
  split at h
  · exact absurd h (by simp)
  next cpd hcpd =>
    split at h
    · exact absurd h (by simp)
    next g₁ hAI =>
      have hg₁ : g₁.money = g.money := by
        by_cases hact : cpd.state.active
        · rw [if_pos hact] at hAI
          split at hAI
          · exact absurd hAI (by simp)
          next okb msg hval =>
            split at hAI
            · exact absurd hAI (by simp)
            · split at hAI
              · exact absurd hAI (by simp)
              next a' amt' htr =>
                split at hAI
                · exact absurd hAI (by simp)
                next g₂ betOpt happ =>
                  cases betOpt with
                  | none =>
                    dsimp only [] at hAI
                    split at hAI
                    · exact absurd hAI (by simp)
                    next stage hst =>
                      simp only [Except.ok.injEq] at hAI
                      subst hAI
                      have hmon := applyAction_money happ
                      exact hmon
                  | some bet =>
                    dsimp only [] at hAI
                    split at hAI
                    · exact absurd hAI (by simp)
                    next g₃ hbet =>
                      split at hAI
                      · exact absurd hAI (by simp)
                      next stage hst =>
                        simp only [Except.ok.injEq] at hAI
                        subst hAI
                        have hmon := (applyBet_money hbet).trans (applyAction_money happ)
                        exact hmon
        · rw [if_neg hact] at hAI
          simp only [Except.ok.injEq] at hAI
          subst hAI
          rfl
      split at h
      · exact absurd h (by simp)
      next np hnp =>
        split at h
        · rw [endRound_money h]
          exact hg₁
        · split at h
          · exact absurd h (by simp)
          next pot0 hpot =>
            split at h
            · rw [endRound_money h]
              exact hg₁
            · simp only [Except.ok.injEq] at h
              subst h
              exact hg₁

theorem runMoves_money :
    ∀ (ms : List (Action × Option Int)) (g g' : Game),
      g.runMoves ms = .ok g' → g'.money = g.money := by
  intro ms
  induction ms with
  | nil =>
    intro g g' h
    unfold Game.runMoves at h
    simp only [Except.ok.injEq] at h
    subst h
    rfl
  | cons m t ih =>
    intro g g' h
    unfold Game.runMoves at h
    split at h
    · exact absurd h (by simp)
    next g₁ hm =>
      exact (ih _ _ h).trans (acceptMove_money hm)

theorem sum_map_zero (l : List Nat) : (l.map (fun _ => (0 : Int))).sum = 0 := by
  induction l with
  | nil => rfl
  | cons a t ih => simp [ih]

theorem money_initA (g : Game) (f : PlayerData → PlayerData) (ids : List Nat) (gA : Game)
    (hpl : gA.pl_data = g.pl_data.map f)
    (hpt : gA.pots = [⟨0, ids.map (fun i => (i, 0)), 0⟩])
    (hf : ∀ q, (f q).chips = q.chips) (hpots : g.potsTotal = 0) :
    gA.money = g.money := by
  have hz : ((ids.map (fun i => (i, (0 : Int)))).map Prod.snd).sum = 0 := by
    rw [List.map_map]
    exact sum_map_zero ids
  show (gA.pl_data.map _).sum + (gA.pots.map Pot.total).sum = _
  rw [hpl, hpt, chipsSum_map f g.pl_data hf]
  simp only [List.map_cons, List.map_nil, List.sum_cons, List.sum_nil, Pot.total]
  rw [hz]
  show _ = g.chipsTotal + g.potsTotal
  rw [hpots]
  show (g.pl_data.map fun q => q.chips).sum + (0 + 0 + 0)
    = (g.pl_data.map fun q => q.chips).sum + 0
  ring

theorem foldlM_ante_money :
    ∀ (pls : List Nat) (gx g' : Game),
      pls.foldlM (fun (gy : Game) i => gy.anteOne i) gx = .ok g' → g'.money = gx.money := by
  intro pls
  induction pls with
  | nil =>
    intro gx g' h
    rw [List.foldlM_nil] at h
    have h₂ : (Except.ok gx : Except Err Game) = Except.ok g' := h
    simp only [Except.ok.injEq] at h₂
    subst h₂
    rfl
  | cons i t ih =>
    intro gx g' h
    rw [List.foldlM_cons] at h
    cases ha : gx.anteOne i with
    | error e =>
      rw [ha] at h
      have h₂ : (Except.error e : Except Err Game) = Except.ok g' := h
      exact absurd h₂ (by simp)
    | ok g₁ =>
      rw [ha] at h
      have h₂ : t.foldlM (fun (gy : Game) i => gy.anteOne i) g₁ = .ok g' := h
      exact (ih _ _ h₂).trans (anteOne_money ha)

theorem potsTotal_setLastRaised (pots : List Pot) (lp : Pot) (v : Int)
    (hl : pots.getLast? = some lp) :
    ((pots.dropLast ++ [{ lp with total_raised := v }]).map Pot.total).sum
      = (pots.map Pot.total).sum := by
  have hne : pots ≠ [] := by rintro rfl; simp at hl
  rw [List.getLast?_eq_getLast _ hne, Option.some.injEq] at hl
  subst hl
  conv_rhs => rw [← List.dropLast_append_getLast hne]
  simp only [List.map_append, List.sum_append, List.map_cons, List.map_nil, List.sum_cons,
    List.sum_nil]
  rfl

theorem initHand_money {g : Game} {d : List Card} {g' : Game}
    (hpots : g.potsTotal = 0) (h : g.initHand d = .ok g') : g'.money = g.money := by
  unfold Game.initHand at h
  split at h
  · simp only [Except.ok.injEq] at h
    subst h
    rfl
  · dsimp only [] at h
    split at h
    · exact absurd h (by simp)
    next sb hsb =>
      split at h
      · exact absurd h (by simp)
      next bb hbb =>
        split at h
        · exact absurd h (by simp)
        next gC hbc1 =>
          split at h
          · exact absurd h (by simp)
          next gD hbc2 =>
            split at h
            · exact absurd h (by simp)
            next gE hante =>
              split at h
              · exact absurd h (by simp)
              next lp hlp =>
                split at h
                · exact absurd h (by simp)
                next cur hcur =>
                  simp only [Except.ok.injEq] at h
                  subst h
                  have hE : gE.money = gD.money := by
                    by_cases ha : g.cfg.ante_amt > 0
                    · rw [if_pos ha] at hante
                      split at hante
                      · exact absurd hante (by simp)
                      next pls hpls =>
                        exact foldlM_ante_money pls gD gE hante
                    · rw [if_neg ha] at hante
                      simp only [Except.ok.injEq] at hante
                      subst hante
                      rfl
                  have hD := betChips_money hbc2
                  have hC := betChips_money hbc1
                  have hfin : gE.money = g.money := by
                    rw [hE, hD, hC]
                    exact money_initA g _ _ _ rfl rfl
                      (fun q => by split <;> rfl) hpots
                  rw [← hfin]
                  show gE.chipsTotal + ((gE.pots.dropLast
                      ++ [{ lp with total_raised := g.cfg.big_blind }]).map Pot.total).sum
                    = gE.money
                  rw [potsTotal_setLastRaised gE.pots lp g.cfg.big_blind hlp]
                  rfl

theorem addPlayer_money (g : Game) : g.addPlayer.money = g.money + g.buy_in := by
  show ((g.pl_data ++ [(⟨g.buy_in, .TO_MOVE, g.pots.length - 1⟩ : PlayerData)]).map
        (fun (q : PlayerData) => q.chips)).sum
      + (g.pots.map Pot.total).sum = _
  rw [List.map_append, List.sum_append]
  show (g.pl_data.map fun q => q.chips).sum + (g.buy_in + 0) + (g.pots.map Pot.total).sum
    = g.chipsTotal + g.potsTotal + g.buy_in
  show _ = (g.pl_data.map fun q => q.chips).sum + (g.pots.map Pot.total).sum + g.buy_in
  ring

theorem foldl_addPlayer :
    ∀ (l : List Nat) (g : Game),
      ((l.foldl (fun gx _ => gx.addPlayer) g).money = g.money + l.length * g.buy_in)
      ∧ (l.foldl (fun gx _ => gx.addPlayer) g).potsTotal = g.potsTotal
      ∧ (l.foldl (fun gx _ => gx.addPlayer) g).buy_in = g.buy_in := by
  intro l
  induction l with
  | nil =>
    intro g
    refine ⟨?_, rfl, rfl⟩
    simp
  | cons a t ih =>
    intro g
    rw [List.foldl_cons]
    obtain ⟨h1, h2, h3⟩ := ih g.addPlayer
    refine ⟨?_, ?_, ?_⟩
    · rw [h1, addPlayer_money]
      have hb : g.addPlayer.buy_in = g.buy_in := rfl
      rw [hb]
      simp only [List.length_cons]
      push_cast
      ring
    · rw [h2]; rfl
    · rw [h3]; rfl

theorem freshGame_money (buyIn : Int) (cfg : GameConfig) (n : Nat) :
    (freshGame buyIn cfg n).money = n * buyIn ∧ (freshGame buyIn cfg n).potsTotal = 0 := by
  obtain ⟨h1, h2, h3⟩ := foldl_addPlayer (List.range n) (Game.mk0 buyIn cfg)
  constructor
  · show (freshGame buyIn cfg n).money = _
    unfold freshGame
    rw [h1]
    have hm : (Game.mk0 buyIn cfg).money = 0 := rfl
    have hbb : (Game.mk0 buyIn cfg).buy_in = buyIn := rfl
    rw [hm, hbb, List.length_range]
    ring
  · unfold freshGame
    rw [h2]
    rfl

/-- Initialise a fresh `n`-player game with the given deck order and run a
move sequence through `accept_move`. -/
def runFresh (buyIn : Int) (cfg : GameConfig) (n : Nat) (deck : List Card)
    (ms : List (Action × Option Int)) : Except Err Game :=
  match (freshGame buyIn cfg n).initHand deck with
  | .error e => .error e
  | .ok g => g.runMoves ms

/-- C1: chip conservation.  For every number of players, buy-in, config,
deck order and sequence of accepted moves, if initialising a hand and
running the moves succeeds then the sum of all player stacks plus the sum
of all pot totals equals the initial buy-ins sum `n * buyIn`: every
`accept_move` (fold, call, raise, all-in) and the settlement in
`end_hand` preserve the total. -/
theorem C1_chip_conservation (buyIn : Int) (cfg : GameConfig) (n : Nat) (deck : List Card)
    (ms : List (Action × Option Int)) (g' : Game)
    (h : runFresh buyIn cfg n deck ms = .ok g') :
    g'.money = n * buyIn := by
  unfold runFresh at h
  split at h
  · exact absurd h (by simp)
  next g₀ hinit =>
    have h1 := runMoves_money ms g₀ g' h
    have h2 := initHand_money (freshGame_money buyIn cfg n).2 hinit
    rw [h1, h2, (freshGame_money buyIn cfg n).1]

/-- The final state of a concrete three-player hand where everyone folds
to the big blind. -/
def c1WitnessGame : Game :=
  (runFresh 100 (GameConfig.nl 2 none) 3 deckStd
      [(Action.FOLD, none), (Action.FOLD, none)]).toOption.getD
    (Game.mk0 0 (GameConfig.nl 2 none))

theorem C1_chip_conservation_witness : c1WitnessGame.money = 3 * 100 :=
  C1_chip_conservation 100 (GameConfig.nl 2 none) 3 deckStd
    [(Action.FOLD, none), (Action.FOLD, none)] c1WitnessGame (by rfl)

/-- C10: for every game and every player whose seat exists and whose state
is not active (FOLDED, ALL_IN or OUT), `chips_to_call` reports 0, whatever
the pot's raise level and recorded bets; only TO_MOVE or MOVED players can
be reported as owing chips. -/
theorem C10_inactive_chips_to_call (g : Game) (pl : Nat) (pd : PlayerData)
    (hpd : g.pl_data[pl]? = some pd) (hact : pd.state.active = false) :
    g.chipsToCall pl = some 0 := by
  unfold Game.chipsToCall
  rw [hpd]
  simp [hact]

theorem C10_inactive_chips_to_call_witness :
    ({ Game.mk0 10 (GameConfig.nl 2 none) with
        pl_data := [⟨5, PlayerState.FOLDED, 0⟩] } : Game).chipsToCall 0 = some 0 :=
  C10_inactive_chips_to_call _ 0 ⟨5, PlayerState.FOLDED, 0⟩ (by rfl) (by rfl)

/-- C3: `evaluate` returns exactly the specified ranks on the six named
concrete inputs: Th Jh Qh Kh Ah ↦ 1, 2s 3s 4s 5s 6s ↦ 9, 6s 6d 6h 6c Ks ↦
108, Kc Kh Kd 7c 7s ↦ 185, Tc 7h 4d Kc 2s ↦ 6926, and the 7-card list
Th Jh Qh Kh Ah 2s Ts ↦ 1. -/
theorem C3_concrete_evaluations :
    evaluate [mkCard 8 1, mkCard 9 1, mkCard 10 1, mkCard 11 1, mkCard 12 1] = some 1
    ∧ evaluate [mkCard 0 0, mkCard 1 0, mkCard 2 0, mkCard 3 0, mkCard 4 0] = some 9
    ∧ evaluate [mkCard 4 0, mkCard 4 2, mkCard 4 1, mkCard 4 3, mkCard 11 0] = some 108
    ∧ evaluate [mkCard 11 3, mkCard 11 1, mkCard 11 2, mkCard 5 3, mkCard 5 0] = some 185
    ∧ evaluate [mkCard 8 3, mkCard 5 1, mkCard 2 2, mkCard 11 3, mkCard 0 0] = some 6926
    ∧ evaluate [mkCard 8 1, mkCard 9 1, mkCard 10 1, mkCard 11 1, mkCard 12 1,
        mkCard 0 0, mkCard 8 0] = some 1 := by
  refine ⟨?_, ?_, ?_, ?_, ?_, ?_⟩ <;> rfl

/-- The heads-up no-limit game of the move-generation scenario: buy-in 10,
big blind 2, directly after `init_hand`. -/
def c8Game : Game :=
  ((freshGame 10 (GameConfig.nl 2 none) 2).initHand deckStd).toOption.getD
    (Game.mk0 0 (GameConfig.nl 2 none))

/-- C8: in the 2-player no-limit game with buy-in 10 and big blind 2,
immediately after `init_hand` the player to act (the small blind) has
free chips 8, yet `get_moves` yields only 9 entries — FOLD, CALL,
RAISE by 2..7, ALL_IN — because `last_raise` starts at `cfg.min_bet` and
`GameConfig.nl` sets `min_bet` to the big blind, so the enumeration starts
at max(1, 2) = 2 rather than the specified RAISE by 1..7 (10 entries). -/
theorem C8_nl_moves_scenario :
    c8Game.getMoves c8Game.current_pl_id
      = some [(Action.FOLD, none), (Action.CALL, none),
          (Action.RAISE, some 2), (Action.RAISE, some 3), (Action.RAISE, some 4),
          (Action.RAISE, some 5), (Action.RAISE, some 6), (Action.RAISE, some 7),
          (Action.ALL_IN, none)]
    ∧ c8Game.getMoves c8Game.current_pl_id
      ≠ some [(Action.FOLD, none), (Action.CALL, none),
          (Action.RAISE, some 1), (Action.RAISE, some 2), (Action.RAISE, some 3),
          (Action.RAISE, some 4), (Action.RAISE, some 5), (Action.RAISE, some 6),
          (Action.RAISE, some 7), (Action.ALL_IN, none)] := by
  exact ⟨by rfl, by decide⟩

/-- The heads-up short-stack-blind scenario: buy-in 4, big blind 2, and the
big-blind seat holding a single chip. -/
def c4Game : Game :=
  { freshGame 4 (GameConfig.nl 2 none) 2 with
      pl_data := [⟨4, PlayerState.TO_MOVE, 0⟩, ⟨1, PlayerState.TO_MOVE, 0⟩] }

def c4Run (ms : List (Action × Option Int)) : Except Err Game :=
  match c4Game.initHand deckStd with
  | .error e => .error e
  | .ok g => g.runMoves ms

def c4Init : Game :=
  (c4Game.initHand deckStd).toOption.getD (Game.mk0 0 (GameConfig.nl 2 none))

/-- C4: whenever `init_hand` succeeds with the game running, the last pot's
raise level (`total_raised`) equals the configured big blind, regardless of
the blind amounts actually posted.  In the heads-up short-stack scenario
(big blind held by a 1-chip player, BB = 2, buy-in 4) the small blind's
call alone does not finish the hand: the big-blind player is still to act
with only FOLD and ALL_IN available, and after that forced all-in the hand
resolves. -/
theorem C4_raise_level_big_blind :
    (∀ (g : Game) (d : List Card) (g' : Game), g.initHand d = .ok g' →
        g'.state = .RUNNING →
        ∃ lp, g'.pots.getLast? = some lp ∧ lp.total_raised = g.cfg.big_blind)
    ∧ (c4Run [(Action.CALL, none)]).map
        (fun g => (g.state, g.current_pl_id, g.pl_data.map (fun q => q.chips),
          g.getMoves 1)) = .ok (.RUNNING, 1, [2, 0],
            some [(Action.FOLD, none), (Action.ALL_IN, none)])
    ∧ (c4Run [(Action.CALL, none), (Action.ALL_IN, none)]).map
        (fun g => (g.state, g.pl_data.map (fun q => q.chips)))
      = .ok (.HAND_DONE, [3, 2]) := by
  refine ⟨?_, by rfl, by rfl⟩
  intro g d g' h hrun
  unfold Game.initHand at h
  split at h
  · simp only [Except.ok.injEq] at h
    subst h
    simp at hrun
  · dsimp only [] at h
    split at h
    · exact absurd h (by simp)
    next sb hsb =>
      split at h
      · exact absurd h (by simp)
      next bb hbb =>
        split at h
        · exact absurd h (by simp)
        next gC hbc1 =>
          split at h
          · exact absurd h (by simp)
          next gD hbc2 =>
            split at h
            · exact absurd h (by simp)
            next gE hante =>
              split at h
              · exact absurd h (by simp)
              next lpot hlpot =>
                split at h
                · exact absurd h (by simp)
                next cur hcur =>
                  simp only [Except.ok.injEq] at h
                  subst h
                  refine ⟨{ lpot with total_raised := g.cfg.big_blind }, ?_, rfl⟩
                  show (gE.pots.dropLast
                      ++ [{ lpot with total_raised := g.cfg.big_blind }]).getLast? = _
                  rw [List.getLast?_concat]

/-- In the C4 scenario, after `init_hand` and the small blind's call the
hand has not resolved: the game is still RUNNING and the big-blind player
is still TO_MOVE (not all-in). -/
theorem C4_call_does_not_resolve :
    (c4Run [(Action.CALL, none)]).map
        (fun g => (g.state, g.pl_data.map (fun q => q.state)))
      = .ok (.RUNNING, [PlayerState.MOVED, PlayerState.TO_MOVE]) := by
  rfl

theorem C4_raise_level_big_blind_witness :
    ∃ lp, c4Init.pots.getLast? = some lp ∧ lp.total_raised = (2 : Int) :=
  C4_raise_level_big_blind.1 c4Game deckStd c4Init (by rfl) (by rfl)

/-- A running 3-player state whose current player (seat 0) is all-in. -/
def c7Game : Game :=
  { freshGame 5 (GameConfig.nl 2 none) 3 with
      state := GameState.RUNNING
      pl_data := [⟨5, PlayerState.ALL_IN, 0⟩, ⟨5, PlayerState.TO_MOVE, 0⟩,
        ⟨5, PlayerState.TO_MOVE, 0⟩]
      pots := [⟨0, [(0, 0), (1, 0), (2, 0)], 0⟩] }

/-- The same state with the current player MOVED instead of all-in. -/
def c7bGame : Game :=
  { c7Game with
      pl_data := [⟨5, PlayerState.MOVED, 0⟩, ⟨5, PlayerState.TO_MOVE, 0⟩,
        ⟨5, PlayerState.TO_MOVE, 0⟩] }

/-- C7: when the current player's state is not *active* (not TO_MOVE and
not MOVED — i.e. ALL_IN, FOLDED or OUT), `accept_move` silently ignores
the move and only the current-player pointer advances, provided a TO_MOVE
player remains, the advance succeeds, and the main pot keeps more than one
player (otherwise the engine closes the betting round instead).  A MOVED
current player is *not* skipped: `active` covers TO_MOVE and MOVED, so the
move is validated and executed. -/
theorem C7_inactive_move_skipped (g : Game) (a : Action) (amt : Option Int)
    (cpd : PlayerData) (np : Nat) (pot0 : Pot)
    (hcpd : g.pl_data[g.current_pl_id]? = some cpd)
    (hact : cpd.state.active = false)
    (hnp : g.nextPlayer g.current_pl_id false = some np)
    (hall : g.pl_data.all (fun pd => pd.state ≠ PlayerState.TO_MOVE) = false)
    (hpot : g.pots[0]? = some pot0)
    (hlen1 : pot0.players.length ≠ 1) :
    g.acceptMove a amt = .ok { g with current_pl_id := np } := by
  unfold Game.acceptMove
  rw [hcpd]
  dsimp only []
  rw [if_neg (show ¬(cpd.state.active = true) by simp [hact])]
  dsimp only []
  rw [hnp]
  dsimp only []
  rw [if_neg (show ¬(g.pl_data.all (fun pd => pd.state ≠ PlayerState.TO_MOVE) = true)
    by rw [hall]; exact Bool.false_ne_true)]
  rw [hpot]
  dsimp only []
  rw [if_neg hlen1]

theorem C7_inactive_move_skipped_witness :
    c7Game.acceptMove Action.RAISE (some (-5)) = .ok { c7Game with current_pl_id := 1 } :=
  C7_inactive_move_skipped c7Game Action.RAISE (some (-5))
    ⟨5, PlayerState.ALL_IN, 0⟩ 1 ⟨0, [(0, 0), (1, 0), (2, 0)], 0⟩
    (by rfl) (by rfl) (by rfl) (by rfl) (by rfl) (by decide)

/-- A MOVED current player is not in TO_MOVE, yet the move is *not*
silently ignored: an invalid amount raises InvalidMoveError, contradicting
the claim that any non-TO_MOVE current player's move is skipped without
exception. -/
theorem C7_moved_not_skipped :
    c7bGame.pl_data[c7bGame.current_pl_id]? = some ⟨5, PlayerState.MOVED, 0⟩
    ∧ c7bGame.acceptMove Action.RAISE (some (-5))
      = .error (.invalidMove "Positive value is required for amt.") := by
  exact ⟨by rfl, by rfl⟩

theorem validateMove_invalid (g : Game) (a : Action) (amt : Option Int)
    (pl : Nat) (cpd : PlayerData) (a' : Action) (amt' : Option Int) (toCall : Int)
    (hcpd : g.pl_data[pl]? = some cpd)
    (hstate : cpd.state = PlayerState.TO_MOVE)
    (htr : g.translateMove pl a amt = .ok (a', amt'))
    (htc : g.chipsToCall pl = some toCall)
    (hbad : (∃ v, amt' = some v ∧ v < 0)
      ∨ (a' = .CALL ∧ cpd.chips < toCall)
      ∨ (a' = .RAISE ∧ ∃ v, amt' = some v ∧ cpd.chips < toCall + v)
      ∨ (a' = .RAISE ∧ ∃ v, amt' = some v ∧ v < g.last_raise)
      ∨ (a' = .RAISE ∧ g.cfg.is_limit = true ∧ 2 < g.numPlayers ∧ g.raises_left ≤ 0)) :
    ∃ msg, g.validateMove pl a amt = .ok (false, msg) := by
  unfold Game.validateMove
  rw [htr]
  dsimp only []
  cases hneg : (match amt' with | some v => decide (v < 0) | none => false) with
  | true =>
    rw [if_pos rfl]
    exact ⟨_, rfl⟩
  | false =>
    rw [if_neg Bool.false_ne_true, hcpd]
    show ∃ msg, (if cpd.state ≠ PlayerState.TO_MOVE
        then Except.ok (false, "cannot move in this state") else _)
      = Except.ok (false, msg)
    rw [if_neg (show ¬(cpd.state ≠ PlayerState.TO_MOVE) by simp [hstate])]
    rcases hbad with ⟨v, hv, hvneg⟩ | ⟨hC, hlt⟩ | ⟨hR, v, hv, hpush⟩ |
      ⟨hR, v, hv, hmin⟩ | ⟨hR, hlim, hnp2, hrl⟩
    · subst hv
      simp only [decide_eq_false_iff_not] at hneg
      exact absurd hvneg hneg
    · subst hC
      rw [if_neg (show Action.CALL ≠ Action.RAISE by decide),
        if_neg (show Action.CALL ≠ Action.ALL_IN by decide)]
      show ∃ msg, (if (false && (g.cfg.is_limit && decide (g.numPlayers > 2)
            && decide (g.raises_left ≤ 0))) = true
          then Except.ok (false, "Cannot raise more than 5 times per round.") else _)
        = Except.ok (false, msg)
      rw [if_neg (by simp), htc]
      show ∃ msg, (if Action.CALL = Action.CALL ∧ cpd.chips < toCall
          then Except.ok (false, "Cannot call more than available") else _)
        = Except.ok (false, msg)
      rw [if_pos ⟨rfl, hlt⟩]
      exact ⟨_, rfl⟩
    · subst hR
      subst hv
      rw [if_pos rfl]
      show ∃ msg, (if (true && (g.cfg.is_limit && decide (g.numPlayers > 2)
            && decide (g.raises_left ≤ 0))) = true
          then Except.ok (false, "Cannot raise more than 5 times per round.") else _)
        = Except.ok (false, msg)
      cases hAL : (g.cfg.is_limit && decide (g.numPlayers > 2) && decide (g.raises_left ≤ 0)) with
      | true =>
        rw [if_pos (show (true && true) = true by rfl)]
        exact ⟨_, rfl⟩
      | false =>
        rw [if_neg (by simp), htc]
        show ∃ msg, (if Action.RAISE = Action.CALL ∧ cpd.chips < toCall
            then Except.ok (false, "Cannot call more than available") else _)
          = Except.ok (false, msg)
        rw [if_neg (by simp), if_pos rfl]
        show ∃ msg, (if v < 0
            then Except.ok (false, "Expected positive value for move RAISE.") else _)
          = Except.ok (false, msg)
        by_cases hv0 : v < 0
        · rw [if_pos hv0]
          exact ⟨_, rfl⟩
        · rw [if_neg hv0, if_pos hpush]
          exact ⟨_, rfl⟩
    · subst hR
      subst hv
      rw [if_pos rfl]
      show ∃ msg, (if (true && (g.cfg.is_limit && decide (g.numPlayers > 2)
            && decide (g.raises_left ≤ 0))) = true
          then Except.ok (false, "Cannot raise more than 5 times per round.") else _)
        = Except.ok (false, msg)
      cases hAL : (g.cfg.is_limit && decide (g.numPlayers > 2) && decide (g.raises_left ≤ 0)) with
      | true =>
        rw [if_pos (show (true && true) = true by rfl)]
        exact ⟨_, rfl⟩
      | false =>
        rw [if_neg (by simp), htc]
        show ∃ msg, (if Action.RAISE = Action.CALL ∧ cpd.chips < toCall
            then Except.ok (false, "Cannot call more than available") else _)
          = Except.ok (false, msg)
        rw [if_neg (by simp), if_pos rfl]
        show ∃ msg, (if v < 0
            then Except.ok (false, "Expected positive value for move RAISE.") else _)
          = Except.ok (false, msg)
        by_cases hv0 : v < 0
        · rw [if_pos hv0]
          exact ⟨_, rfl⟩
        · rw [if_neg hv0]
          by_cases hp : cpd.chips < toCall + v
          · rw [if_pos hp]
            exact ⟨_, rfl⟩
          · rw [if_neg hp, if_pos hmin]
            exact ⟨_, rfl⟩
    · subst hR
      rw [if_pos rfl]
      show ∃ msg, (if (true && (g.cfg.is_limit && decide (g.numPlayers > 2)
            && decide (g.raises_left ≤ 0))) = true
          then Except.ok (false, "Cannot raise more than 5 times per round.") else _)
        = Except.ok (false, msg)
      rw [if_pos (by simp [hlim, hnp2, hrl])]
      exact ⟨_, rfl⟩

/-- C6: whenever `accept_move` is given an invalid move for the player to
act (state TO_MOVE) — a negative translated amount, a call or raise
pushing more chips than the player has, a raise under `last_raise`, or a
raise when no raises remain in fixed-limit with more than two players —
it raises the typed InvalidMoveError (no crash, no silent acceptance);
the failed validation happens before any mutation, so the game state is
unchanged.  In heads-up fixed-limit the raise-exhaustion check does not
apply (`at_bet_limit` requires more than two players). -/
theorem C6_invalid_move_rejected (g : Game) (a : Action) (amt : Option Int)
    (cpd : PlayerData) (a' : Action) (amt' : Option Int) (toCall : Int)
    (hcpd : g.pl_data[g.current_pl_id]? = some cpd)
    (hstate : cpd.state = PlayerState.TO_MOVE)
    (htr : g.translateMove g.current_pl_id a amt = .ok (a', amt'))
    (htc : g.chipsToCall g.current_pl_id = some toCall)
    (hbad : (∃ v, amt' = some v ∧ v < 0)
      ∨ (a' = .CALL ∧ cpd.chips < toCall)
      ∨ (a' = .RAISE ∧ ∃ v, amt' = some v ∧ cpd.chips < toCall + v)
      ∨ (a' = .RAISE ∧ ∃ v, amt' = some v ∧ v < g.last_raise)
      ∨ (a' = .RAISE ∧ g.cfg.is_limit = true ∧ 2 < g.numPlayers ∧ g.raises_left ≤ 0)) :
    ∃ msg, g.acceptMove a amt = .error (.invalidMove msg) := by
  obtain ⟨msg, hval⟩ := validateMove_invalid g a amt g.current_pl_id cpd a' amt' toCall
    hcpd hstate htr htc hbad
  refine ⟨msg, ?_⟩
  unfold Game.acceptMove
  rw [hcpd]
  dsimp only []
  rw [if_pos (show cpd.state.active = true by rw [hstate]; rfl)]
  rw [hval]
  dsimp only []
  rw [if_pos rfl]

/-- A running 3-player fixed-limit state with no raises left. -/
def c6bGame : Game :=
  { freshGame 20 (GameConfig.fl 2) 3 with
      state := GameState.RUNNING
      raises_left := 0
      pl_data := [⟨20, PlayerState.TO_MOVE, 0⟩, ⟨20, PlayerState.TO_MOVE, 0⟩,
        ⟨20, PlayerState.TO_MOVE, 0⟩]
      pots := [⟨0, [(0, 0), (1, 0), (2, 0)], 0⟩] }

/-- The same state heads-up: only two players. -/
def c6Game : Game :=
  { freshGame 20 (GameConfig.fl 2) 2 with
      state := GameState.RUNNING
      raises_left := 0
      pl_data := [⟨20, PlayerState.TO_MOVE, 0⟩, ⟨20, PlayerState.TO_MOVE, 0⟩]
      pots := [⟨0, [(0, 0), (1, 0)], 0⟩] }

theorem C6_invalid_move_rejected_witness :
    ∃ msg, c6bGame.acceptMove Action.RAISE (some 2) = .error (.invalidMove msg) :=
  C6_invalid_move_rejected c6bGame Action.RAISE (some 2)
    ⟨20, PlayerState.TO_MOVE, 0⟩ Action.RAISE (some 2) 0
    (by rfl) (by rfl) (by rfl) (by rfl)
    (Or.inr (Or.inr (Or.inr (Or.inr ⟨rfl, by rfl, by decide, by decide⟩))))

/-- Heads-up fixed-limit with `raises_left = 0`: a raise is *accepted*,
so "a raise when no raises remain in fixed-limit" is not invalid with
only two players (`at_bet_limit` requires more than two). -/
theorem C6_heads_up_limit_raise_accepted :
    c6Game.cfg.is_limit = true ∧ c6Game.raises_left ≤ 0 ∧
    (c6Game.acceptMove Action.RAISE (some 2)).toOption.isSome = true := by
  refine ⟨by rfl, by decide, by rfl⟩

/-- `InfoSet.calculate_strategy` from `src/agents/cfr.py`, over exact
rationals (the Python floats), on the regret dict as an ordered
association list. -/
def calculate_strategy (regrets : List (α × ℚ)) : List (α × ℚ) :=
  let pos_regrets := regrets.map (fun e => (e.1, max 0 e.2))
  let sum_regrets := (pos_regrets.map Prod.snd).sum
  if sum_regrets = 0 then
    let length := pos_regrets.length
    pos_regrets.map (fun e => (e.1, 1 / (length : ℚ)))
  else pos_regrets.map (fun e => (e.1, e.2 / sum_regrets))

theorem sum_map_const_q (c : ℚ) :
    ∀ l : List (α × ℚ), ((l.map (fun e => (e.1, c))).map Prod.snd).sum = l.length * c := by
  intro l
  induction l with
  | nil => simp
  | cons e t ih =>
    simp only [List.map_cons, List.sum_cons, List.length_cons, ih]
    push_cast
    ring

theorem sum_map_div_q (S : ℚ) :
    ∀ l : List ℚ, (l.map (fun x => x / S)).sum = l.sum / S := by
  intro l
  induction l with
  | nil => simp
  | cons x t ih => simp only [List.map_cons, List.sum_cons, ih, add_div]

/-- C9: for every info set with a non-empty action list, after
`calculate_strategy` the strategy values sum to exactly 1 (hence within
1e-9 of 1), and when every accumulated regret is ≤ 0 the strategy is
uniform, giving each action probability 1 / (number of actions). -/
theorem C9_calculate_strategy (regs : List (α × ℚ)) (hne : regs ≠ []) :
    (((calculate_strategy regs).map Prod.snd).sum = 1
      ∧ |((calculate_strategy regs).map Prod.snd).sum - 1| < 1 / 1000000000)
    ∧ ((∀ e ∈ regs, e.2 ≤ 0) →
        calculate_strategy regs = regs.map (fun e => (e.1, 1 / (regs.length : ℚ)))) := by
  have hlen : ((regs.map (fun e => (e.1, max 0 e.2))).length : ℚ) ≠ 0 := by
    rw [List.length_map]
    exact_mod_cast List.length_pos.mpr hne |>.ne'
  have hsum1 : ((calculate_strategy regs).map Prod.snd).sum = 1 := by
    unfold calculate_strategy
    dsimp only []
    by_cases hS : (((regs.map (fun e => (e.1, max 0 e.2))).map Prod.snd)).sum = 0
    · rw [if_pos hS, sum_map_const_q]
      simp only [List.length_map, mul_one_div]
      exact div_self (by exact_mod_cast List.length_pos.mpr hne |>.ne')
    · rw [if_neg hS]
      have : ((regs.map (fun e => (e.1, max 0 e.2))).map
            (fun e => ((e.1 : α), e.2 / ((regs.map (fun e => (e.1, max 0 e.2))).map
              Prod.snd).sum))).map Prod.snd
          = ((regs.map (fun e => (e.1, max 0 e.2))).map Prod.snd).map
            (fun x => x / ((regs.map (fun e => (e.1, max 0 e.2))).map Prod.snd).sum) := by
        simp only [List.map_map]
        rfl
      rw [this, sum_map_div_q, div_self hS]
  refine ⟨⟨hsum1, ?_⟩, ?_⟩
  · rw [hsum1]
    norm_num
  · intro hall
    unfold calculate_strategy
    dsimp only []
    have hmax : regs.map (fun e => (e.1, max 0 e.2)) = regs.map (fun e => (e.1, (0 : ℚ))) :=
      List.map_congr_left (fun e he => by
        have := hall e he
        simp [max_eq_left this])
    rw [hmax]
    rw [if_pos (by
      have : ((regs.map (fun e => ((e.1 : α), (0 : ℚ)))).map Prod.snd).sum
          = (regs.length : ℚ) * 0 := sum_map_const_q 0 regs
      rw [this, mul_zero])]
    simp only [List.map_map, List.length_map]
    rfl

theorem C9_calculate_strategy_witness :
    ((calculate_strategy [((0 : Nat), (-1 : ℚ)), (1, 0)]).map Prod.snd).sum = 1
    ∧ calculate_strategy [((0 : Nat), (-1 : ℚ)), (1, 0)]
      = [(0, 1 / 2), (1, 1 / 2)] :=
  ⟨(C9_calculate_strategy [((0 : Nat), (-1 : ℚ)), (1, 0)] (by decide)).1.1,
   ((C9_calculate_strategy [((0 : Nat), (-1 : ℚ)), (1, 0)] (by decide)).2
     (by decide)).trans (by norm_num)⟩

theorem sameB_const (c : Int) : ∀ (l : List β), sameB (l.map (fun _ => c)) = true := by
  intro l
  induction l with
  | nil => rfl
  | cons a t ih =>
    cases t with
    | nil => rfl
    | cons b t' =>
      show ((c == c) && sameB ((b :: t').map (fun _ => c))) = true
      rw [ih]
      simp

theorem excess_len_lt (m : Int) :
    ∀ (bets : List (Nat × Int)), (∃ e ∈ bets, e.2 = m) →
      (bets.filterMap (fun e => if e.2 = m then none else some (e.1, e.2 - m))).length
        < bets.length := by
  intro bets
  induction bets with
  | nil => rintro ⟨e, he, -⟩; simp at he
  | cons b t ih =>
    rintro ⟨e, he, hem⟩
    by_cases hb : b.2 = m
    · simp only [List.filterMap_cons, if_pos hb, List.length_cons]
      exact Nat.lt_succ_of_le (List.length_filterMap_le _ t)
    · have het : e ∈ t := by
        rcases List.mem_cons.mp he with rfl | h
        · exact absurd hem hb
        · exact h
      simp only [List.filterMap_cons, if_neg hb, List.length_cons]
      exact Nat.succ_lt_succ (ih ⟨e, het, hem⟩)

theorem splitAux_sameB : ∀ (fuel : Nat) (p : Pot), p.bets.length ≤ fuel →
    ∀ q ∈ (Pot.splitAux fuel p).1 :: (Pot.splitAux fuel p).2,
      sameB (q.bets.map Prod.snd) = true := by
  intro fuel
  induction fuel with
  | zero =>
    intro p hlen q hq
    have hnil : p.bets = [] := List.length_eq_zero.mp (Nat.le_zero.mp hlen)
    simp only [Pot.splitAux] at hq
    rcases List.mem_cons.mp hq with rfl | h
    · rw [hnil]; rfl
    · simp at h
  | succ n ih =>
    intro p hlen q hq
    by_cases hs : sameB (p.bets.map Prod.snd) = true
    · unfold Pot.splitAux at hq
      rw [if_pos hs] at hq
      rcases List.mem_cons.mp hq with rfl | h
      · exact hs
      · simp at h
    · unfold Pot.splitAux at hq
      rw [if_neg hs] at hq
      dsimp only [] at hq
      rcases List.mem_cons.mp hq with rfl | hq2
      · show sameB ((p.bets.map (fun e =>
            (e.1, ((p.bets.map Prod.snd).min?).getD 0))).map Prod.snd) = true
        rw [List.map_map]
        exact sameB_const _ p.bets
      · cases hmin : (p.bets.map Prod.snd).min? with
        | none =>
          have : p.bets.map Prod.snd = [] := List.min?_eq_none_iff.mp hmin
          have hb : p.bets = [] := List.map_eq_nil_iff.mp this
          exact absurd (by rw [hb]; rfl) hs
        | some m' =>
          have hm'mem : m' ∈ p.bets.map Prod.snd :=
            List.min?_mem (fun _ _ => min_choice _ _) hmin
          obtain ⟨e, he, he2⟩ := List.mem_map.mp hm'mem
          refine ih _ ?_ q hq2
          show (p.bets.filterMap _).length ≤ n
          simp only [hmin, Option.getD_some]
          exact Nat.le_of_lt_succ
            (Nat.lt_of_lt_of_le (excess_len_lt m' p.bets ⟨e, he, he2⟩) hlen)

/-- C5: `split` caps each layer's bets at its minimum and carries the
excess into fresh layers (with the pot itself excluded from the returned
list, here the second component): the combined chip total over all layers
is preserved, every produced layer has uniform bets, and after
`collect_bets` every layer has all bets 0 and raise level 0. -/
theorem C5_split_collect (p : Pot) :
    (p.split.1.total + (p.split.2.map Pot.total).sum = p.total)
    ∧ (∀ q ∈ p.split.1 :: p.split.2, sameB (q.bets.map Prod.snd) = true)
    ∧ (∀ q ∈ (p.split.1 :: p.split.2).map Pot.collect_bets,
        (∀ e ∈ q.bets, e.2 = 0) ∧ q.total_raised = 0) := by
  refine ⟨Pot.split_total p, splitAux_sameB p.bets.length p (le_refl _), ?_⟩
  intro q hq
  obtain ⟨q₀, -, rfl⟩ := List.mem_map.mp hq
  refine ⟨?_, rfl⟩
  intro e he
  obtain ⟨x, -, rfl⟩ := List.mem_map.mp he
  rfl

theorem C5_split_collect_witness :
    ((Pot.split ⟨5, [(0, 3), (1, 1)], 3⟩).1.total
      + ((Pot.split ⟨5, [(0, 3), (1, 1)], 3⟩).2.map Pot.total).sum
        = Pot.total ⟨5, [(0, 3), (1, 1)], 3⟩)
    ∧ sameB ((Pot.split ⟨5, [(0, 3), (1, 1)], 3⟩).1.bets.map Prod.snd) = true :=
  ⟨(C5_split_collect ⟨5, [(0, 3), (1, 1)], 3⟩).1,
   (C5_split_collect ⟨5, [(0, 3), (1, 1)], 3⟩).2.1 _ (List.mem_cons_self _ _)⟩

/-! ## Evaluate contract (claim C2)

Coverage of the lookup tables: every 5 distinct cards' prime product is a
key of the appropriate table, every stored value lies in [1, 7462], and
the >5-card branch is the minimum over the 5-card combinations. -/

theorem lookup_mem : ∀ {l : List (Nat × Nat)} {k v : Nat},
    List.lookup k l = some v → (k, v) ∈ l := by
  intro l
  induction l with
  | nil => intro k v h; simp [List.lookup] at h
  | cons e t ih =>
    intro k v h
    rw [List.lookup] at h
    cases hke : (k == e.1) with
    | true =>
      rw [hke] at h
      simp only [Option.some.injEq] at h
      subst h
      have : k = e.1 := by exact_mod_cast beq_iff_eq.mp hke
      subst this
      exact List.mem_cons_self _ _
    | false =>
      rw [hke] at h
      exact List.mem_cons_of_mem _ (ih h)

theorem lookup_isSome_of_mem : ∀ {l : List (Nat × Nat)} {k v : Nat},
    (k, v) ∈ l → ∃ v', List.lookup k l = some v' := by
  intro l
  induction l with
  | nil => intro k v h; simp at h
  | cons e t ih =>
    intro k v h
    rw [List.lookup]
    cases hke : (k == e.1) with
    | true => exact ⟨e.2, rfl⟩
    | false =>
      rcases List.mem_cons.mp h with rfl | hm
      · rw [beq_self_eq_true] at hke
        cases hke
      · exact ih hm

theorem mem_enumFrom_of_mem : ∀ {l : List α} {x : α}, x ∈ l →
    ∀ n : Nat, ∃ i, (i, x) ∈ l.enumFrom n := by
  intro l
  induction l with
  | nil => intro x h; simp at h
  | cons a t ih =>
    intro x h n
    rcases List.mem_cons.mp h with rfl | hm
    · exact ⟨n, List.mem_cons_self _ _⟩
    · obtain ⟨i, hi⟩ := ih hm (n + 1)
      exact ⟨i, List.mem_cons_of_mem _ hi⟩

theorem mem_enum_of_mem {l : List α} {x : α} (h : x ∈ l) : ∃ i, (i, x) ∈ l.enum := by
  rw [List.enum_eq_enumFrom]
  exact mem_enumFrom_of_mem h 0

theorem fst_lt_of_mem_enumFrom : ∀ {l : List α} {p : Nat × α} {n : Nat},
    p ∈ l.enumFrom n → p.1 < n + l.length := by
  intro l
  induction l with
  | nil => intro p n h; simp at h
  | cons a t ih =>
    intro p n h
    rcases List.mem_cons.mp h with rfl | hm
    · simp
    · have := ih hm
      simp only [List.length_cons]
      omega

theorem sameB_all_eq [BEq α] [LawfulBEq α] : ∀ {l : List α}, sameB l = true →
    ∀ x ∈ l, ∀ y ∈ l, x = y := by
  intro l
  induction l with
  | nil => intro _ x hx; simp at hx
  | cons a t ih =>
    intro h x hx y hy
    cases t with
    | nil =>
      simp at hx hy
      rw [hx, hy]
    | cons b t' =>
      have hab : a = b := by
        have : (a == b && sameB (b :: t')) = true := h
        exact eq_of_beq (Bool.and_elim_left this)
      have ht : sameB (b :: t') = true := by
        have : (a == b && sameB (b :: t')) = true := h
        exact Bool.and_elim_right this
      rcases List.mem_cons.mp hx with rfl | hx'
      · rcases List.mem_cons.mp hy with rfl | hy'
        · rfl
        · rw [hab]; exact ih ht b (List.mem_cons_self _ _) y hy'
      · rcases List.mem_cons.mp hy with rfl | hy'
        · rw [hab]; exact (ih ht x hx' b (List.mem_cons_self _ _)).trans rfl
        · exact ih ht x hx' y hy'

theorem allSome_spec (f : α → Option β) : ∀ (l : List α),
    (∀ x ∈ l, ∃ y, f x = some y) →
    ∃ vs, allSome (l.map f) = some vs ∧ l.map f = vs.map some := by
  intro l
  induction l with
  | nil => intro _; exact ⟨[], rfl, rfl⟩
  | cons a t ih =>
    intro h
    obtain ⟨y, hy⟩ := h a (List.mem_cons_self _ _)
    obtain ⟨vs, hvs, hmap⟩ := ih (fun x hx => h x (List.mem_cons_of_mem _ hx))
    refine ⟨y :: vs, ?_, ?_⟩
    · rw [List.map_cons, hy]
      show (allSome (t.map f)).map (y :: ·) = _
      rw [hvs]
      rfl
    · rw [List.map_cons, hy, hmap]
      rfl

theorem mem_combosK : ∀ (l : List α) (k : Nat) (s : List α),
    s ∈ combosK k l ↔ s.Sublist l ∧ s.length = k := by
  intro l
  induction l with
  | nil =>
    intro k s
    cases k with
    | zero =>
      simp only [combosK, List.mem_singleton]
      constructor
      · rintro rfl; exact ⟨List.Sublist.refl _, rfl⟩
      · rintro ⟨hs, hl⟩
        exact List.length_eq_zero.mp hl
    | succ n =>
      simp only [combosK, List.not_mem_nil, false_iff, not_and]
      intro hs hl
      have hle := hs.length_le
      rw [List.length_nil] at hle
      omega
  | cons x xs ih =>
    intro k s
    cases k with
    | zero =>
      simp only [combosK, List.mem_singleton]
      constructor
      · rintro rfl; exact ⟨List.nil_sublist _, rfl⟩
      · rintro ⟨-, hl⟩
        exact List.length_eq_zero.mp hl
    | succ n =>
      simp only [combosK, List.mem_append, List.mem_map]
      constructor
      · rintro (⟨t, ht, rfl⟩ | hs)
        · obtain ⟨hsub, hlen⟩ := (ih n t).mp ht
          exact ⟨List.Sublist.cons₂ x hsub, by simp [hlen]⟩
        · obtain ⟨hsub, hlen⟩ := (ih (n + 1) s).mp hs
          exact ⟨hsub.cons x, hlen⟩
      · rintro ⟨hsub, hlen⟩
        rcases List.sublist_cons_iff.mp hsub with hs | ⟨r, rfl, hr⟩
        · exact Or.inr ((ih (n + 1) s).mpr ⟨hs, hlen⟩)
        · refine Or.inl ⟨r, (ih n r).mpr ⟨hr, ?_⟩, rfl⟩
          simpa using hlen

theorem exists_of_mem_keys {l : List (Nat × Nat)} {k : Nat}
    (h : k ∈ l.map Prod.fst) : ∃ v, (k, v) ∈ l := by
  obtain ⟨p, hp, he⟩ := List.mem_map.mp h
  exact ⟨p.2, by rw [← he]; exact hp⟩

theorem ffGen_intro {a b : Nat} (hb : b < 13) (hne : b ≠ a) : (a, b) ∈ ffGen a := by
  rw [ffGen]
  refine List.mem_filterMap.mpr ⟨b, List.mem_range.mpr hb, ?_⟩
  rw [if_neg hne]

theorem ff_fours_mem {a b : Nat} (ha : a < 13) (hb : b < 13) (hne : b ≠ a) :
    ∃ v, (keyOf [a, a, a, a, b], v) ∈ foursFullT := by
  obtain ⟨i, hi⟩ := mem_enum_of_mem
    (List.mem_flatMap.mpr ⟨a, List.mem_range.mpr ha, ffGen_intro hb hne⟩)
  exact ⟨FOURS_BEST + (156 - 1 - i),
    List.mem_flatMap.mpr ⟨(i, (a, b)), hi, List.mem_cons_self _ _⟩⟩

theorem ff_full_mem {a b : Nat} (ha : a < 13) (hb : b < 13) (hne : b ≠ a) :
    ∃ v, (keyOf [a, a, a, b, b], v) ∈ foursFullT := by
  obtain ⟨i, hi⟩ := mem_enum_of_mem
    (List.mem_flatMap.mpr ⟨a, List.mem_range.mpr ha, ffGen_intro hb hne⟩)
  exact ⟨FULL_BEST + (156 - 1 - i),
    List.mem_flatMap.mpr ⟨(i, (a, b)), hi,
      List.mem_cons_of_mem _ (List.mem_cons_self _ _)⟩⟩

theorem tripsGen_intro {a b c : Nat} (hb : b < 13) (hba : b ≠ a) (hc : c < b)
    (hca : c ≠ a) : (a, b, c) ∈ tripsGen a := by
  rw [tripsGen]
  refine List.mem_flatMap.mpr ⟨b, List.mem_range.mpr hb, ?_⟩
  rw [if_neg hba]
  exact List.mem_filterMap.mpr ⟨c, List.mem_range.mpr hc, by rw [if_neg hca]⟩

theorem trips_mem {a b c : Nat} (ha : a < 13) (hb : b < 13) (hba : b ≠ a)
    (hc : c < b) (hca : c ≠ a) : ∃ v, (keyOf [a, a, a, b, c], v) ∈ tripsT := by
  obtain ⟨i, hi⟩ := mem_enum_of_mem
    (List.mem_flatMap.mpr ⟨a, List.mem_range.mpr ha, tripsGen_intro hb hba hc hca⟩)
  exact ⟨_, List.mem_map.mpr ⟨(i, (a, b, c)), hi, rfl⟩⟩

theorem tpairGen_intro {a b c : Nat} (hb : b < a) (hc : c < 13) (hca : c ≠ a)
    (hcb : c ≠ b) : (a, b, c) ∈ tpairGen a := by
  rw [tpairGen]
  refine List.mem_flatMap.mpr ⟨b, List.mem_range.mpr hb, ?_⟩
  refine List.mem_filterMap.mpr ⟨c, List.mem_range.mpr hc, ?_⟩
  rw [if_neg (by push_neg; exact ⟨hca, hcb⟩)]

theorem tpair_mem {a b c : Nat} (ha : a < 13) (hb : b < a) (hc : c < 13)
    (hca : c ≠ a) (hcb : c ≠ b) : ∃ v, (keyOf [a, a, b, b, c], v) ∈ tpairT := by
  obtain ⟨i, hi⟩ := mem_enum_of_mem
    (List.mem_flatMap.mpr ⟨a, List.mem_range.mpr ha, tpairGen_intro hb hc hca hcb⟩)
  exact ⟨_, List.mem_map.mpr ⟨(i, (a, b, c)), hi, rfl⟩⟩

theorem pairGen2_intro {a b c d : Nat} (hba : b ≠ a) (hc : c < b) (hca : c ≠ a)
    (hd : d < c) (hda : d ≠ a) : (a, b, c, d) ∈ pairGen2 a b := by
  rw [pairGen2, if_neg hba]
  refine List.mem_flatMap.mpr ⟨c, List.mem_range.mpr hc, ?_⟩
  rw [if_neg hca]
  exact List.mem_filterMap.mpr ⟨d, List.mem_range.mpr hd, by rw [if_neg hda]⟩

theorem pairGen_intro {a b c d : Nat} (hb : b < 13) (hba : b ≠ a) (hc : c < b)
    (hca : c ≠ a) (hd : d < c) (hda : d ≠ a) : (a, b, c, d) ∈ pairGen a := by
  rw [pairGen]
  exact List.mem_flatMap.mpr ⟨b, List.mem_range.mpr hb,
    pairGen2_intro hba hc hca hd hda⟩

theorem pair_mem {a b c d : Nat} (ha : a < 13) (hb : b < 13) (hba : b ≠ a)
    (hc : c < b) (hca : c ≠ a) (hd : d < c) (hda : d ≠ a) :
    ∃ v, (keyOf [a, a, b, c, d], v) ∈ pairT := by
  obtain ⟨i, hi⟩ := mem_enum_of_mem
    (List.mem_flatMap.mpr ⟨a, List.mem_range.mpr ha,
      pairGen_intro hb hba hc hca hd hda⟩)
  exact ⟨_, List.mem_map.mpr ⟨(i, (a, b, c, d)), hi, rfl⟩⟩

theorem highGen2_intro {a b c d e : Nat} (hc : c < b) (hd : d < c) (he : e < d)
    (hns : isStraightTup a b c d e = false) : (a, b, c, d, e) ∈ highGen2 a b := by
  rw [highGen2]
  refine List.mem_flatMap.mpr ⟨c, List.mem_range.mpr hc, ?_⟩
  refine List.mem_flatMap.mpr ⟨d, List.mem_range.mpr hd, ?_⟩
  refine List.mem_filterMap.mpr ⟨e, List.mem_range.mpr he, ?_⟩
  rw [if_neg (by simp [hns])]

theorem highGen_intro {a b c d e : Nat} (hb : b < a) (hc : c < b)
    (hd : d < c) (he : e < d) (hns : isStraightTup a b c d e = false) :
    (a, b, c, d, e) ∈ highGen a := by
  rw [highGen]
  exact List.mem_flatMap.mpr ⟨b, List.mem_range.mpr hb, highGen2_intro hc hd he hns⟩

theorem highTuples_intro {a b c d e : Nat} (ha : a < 13) (hb : b < a) (hc : c < b)
    (hd : d < c) (he : e < d) (hns : isStraightTup a b c d e = false) :
    (a, b, c, d, e) ∈ highTuples :=
  List.mem_flatMap.mpr ⟨a, List.mem_range.mpr ha, highGen_intro hb hc hd he hns⟩

theorem high_mem {a b c d e : Nat} (ha : a < 13) (hb : b < a) (hc : c < b)
    (hd : d < c) (he : e < d) (hns : isStraightTup a b c d e = false) :
    ∃ v, (keyOf [a, b, c, d, e], v) ∈ highT := by
  obtain ⟨i, hi⟩ := mem_enum_of_mem (highTuples_intro ha hb hc hd he hns)
  exact ⟨_, List.mem_map.mpr ⟨(i, (a, b, c, d, e)), hi, rfl⟩⟩

theorem flush_mem {a b c d e : Nat} (ha : a < 13) (hb : b < a) (hc : c < b)
    (hd : d < c) (he : e < d) (hns : isStraightTup a b c d e = false) :
    ∃ v, (keyOf [a, b, c, d, e], v) ∈ flushT := by
  obtain ⟨i, hi⟩ := mem_enum_of_mem (highTuples_intro ha hb hc hd he hns)
  exact ⟨_, List.mem_map.mpr ⟨(i, (a, b, c, d, e)), hi, rfl⟩⟩

theorem straight_keys_unsuited :
    ∀ e < 9, keyOf [e + 4, e + 3, e + 2, e + 1, e] ∈ unsuitedStraights.map Prod.fst := by
  decide

theorem wheel_key_unsuited : keyOf [12, 3, 2, 1, 0] ∈ unsuitedStraights.map Prod.fst := by
  decide

theorem straight_keys_suited :
    ∀ e < 9, keyOf [e + 4, e + 3, e + 2, e + 1, e] ∈ suitedStraights.map Prod.fst := by
  decide

theorem wheel_key_suited : keyOf [12, 3, 2, 1, 0] ∈ suitedStraights.map Prod.fst := by
  decide

theorem unsuitedStraights_val {k v : Nat} (h : (k, v) ∈ unsuitedStraights) :
    1 ≤ v ∧ v ≤ 7462 := by
  obtain ⟨p, hp, he⟩ := List.mem_map.mp h
  have hv : STRAIGHT_BEST + p.1 = v := congrArg Prod.snd he
  rw [List.enum_eq_enumFrom] at hp
  have hlt := fst_lt_of_mem_enumFrom hp
  have hlen : straightKeyList.length = 10 := rfl
  rw [← hv]
  simp only [STRAIGHT_BEST]
  omega

theorem suitedStraights_val {k v : Nat} (h : (k, v) ∈ suitedStraights) :
    1 ≤ v ∧ v ≤ 7462 := by
  obtain ⟨p, hp, he⟩ := List.mem_map.mp h
  have hv : STR_FLUSH_BEST + p.1 = v := congrArg Prod.snd he
  rw [List.enum_eq_enumFrom] at hp
  have hlt := fst_lt_of_mem_enumFrom hp
  have hlen : straightKeyList.length = 10 := rfl
  rw [← hv]
  simp only [STR_FLUSH_BEST]
  omega

theorem foursFullT_val {k v : Nat} (h : (k, v) ∈ foursFullT) : 1 ≤ v ∧ v ≤ 7462 := by
  obtain ⟨p, hp, hin⟩ := List.mem_flatMap.mp h
  rcases List.mem_cons.mp hin with he | hin2
  · have hv : v = FOURS_BEST + (156 - 1 - p.1) := congrArg Prod.snd he
    rw [hv]
    simp only [FOURS_BEST]
    omega
  · rcases List.mem_cons.mp hin2 with he | hin3
    · have hv : v = FULL_BEST + (156 - 1 - p.1) := congrArg Prod.snd he
      rw [hv]
      simp only [FULL_BEST]
      omega
    · simp at hin3

theorem tripsT_val {k v : Nat} (h : (k, v) ∈ tripsT) : 1 ≤ v ∧ v ≤ 7462 := by
  obtain ⟨p, hp, he⟩ := List.mem_map.mp h
  have hv : TRIPS_BEST + (858 - 1 - p.1) = v := congrArg Prod.snd he
  rw [← hv]
  simp only [TRIPS_BEST]
  omega

theorem tpairT_val {k v : Nat} (h : (k, v) ∈ tpairT) : 1 ≤ v ∧ v ≤ 7462 := by
  obtain ⟨p, hp, he⟩ := List.mem_map.mp h
  have hv : TPAIR_BEST + (858 - 1 - p.1) = v := congrArg Prod.snd he
  rw [← hv]
  simp only [TPAIR_BEST]
  omega

theorem pairT_val {k v : Nat} (h : (k, v) ∈ pairT) : 1 ≤ v ∧ v ≤ 7462 := by
  obtain ⟨p, hp, he⟩ := List.mem_map.mp h
  have hv : PAIR_BEST + (2860 - 1 - p.1) = v := congrArg Prod.snd he
  rw [← hv]
  simp only [PAIR_BEST]
  omega

theorem highT_val {k v : Nat} (h : (k, v) ∈ highT) : 1 ≤ v ∧ v ≤ 7462 := by
  obtain ⟨p, hp, he⟩ := List.mem_map.mp h
  have hv : HIGH_BEST + (1277 - 1 - p.1) = v := congrArg Prod.snd he
  rw [← hv]
  simp only [HIGH_BEST]
  omega

theorem flushT_val {k v : Nat} (h : (k, v) ∈ flushT) : 1 ≤ v ∧ v ≤ 7462 := by
  obtain ⟨p, hp, he⟩ := List.mem_map.mp h
  have hv : FLUSH_BEST + (1277 - 1 - p.1) = v := congrArg Prod.snd he
  rw [← hv]
  simp only [FLUSH_BEST]
  omega

theorem UNSUITED_val {k v : Nat} (h : (k, v) ∈ UNSUITED) : 1 ≤ v ∧ v ≤ 7462 := by
  rw [UNSUITED] at h
  rcases List.mem_append.mp h with h | h
  rcases List.mem_append.mp h with h | h
  rcases List.mem_append.mp h with h | h
  rcases List.mem_append.mp h with h | h
  rcases List.mem_append.mp h with h | h
  · exact unsuitedStraights_val h
  · exact foursFullT_val h
  · exact tripsT_val h
  · exact tpairT_val h
  · exact pairT_val h
  · exact highT_val h

theorem SUITED_val {k v : Nat} (h : (k, v) ∈ SUITED) : 1 ≤ v ∧ v ≤ 7462 := by
  rw [SUITED] at h
  rcases List.mem_append.mp h with h | h
  · exact suitedStraights_val h
  · exact flushT_val h

theorem list_len5 {l : List Nat} (h : l.length = 5) :
    ∃ a b c d e, l = [a, b, c, d, e] := by
  rcases l with - | ⟨a, - | ⟨b, - | ⟨c, - | ⟨d, - | ⟨e, - | ⟨f, t⟩⟩⟩⟩⟩⟩ <;>
    simp only [List.length_nil, List.length_cons] at h <;> try omega
  exact ⟨a, b, c, d, e, rfl⟩

theorem count_le_four {cs : List Card} (hnd : cs.Nodup) (r : Nat) :
    (cs.map (fun c => c.rank.val)).count r ≤ 4 := by
  rw [List.count, List.countP_eq_length_filter, List.filter_map, List.length_map]
  set fl := cs.filter (fun c => ((fun c : Card => c.rank.val) c == r)) with hfl
  have hflnd : fl.Nodup := hnd.filter _
  have hsuits : (fl.map (fun c => c.suit)).Nodup := by
    refine List.Nodup.map_on ?_ hflnd
    intro x hx y hy hxy
    have hxr : x.rank.val = r := by
      have := List.of_mem_filter hx
      exact_mod_cast beq_iff_eq.mp this
    have hyr : y.rank.val = r := by
      have := List.of_mem_filter hy
      exact_mod_cast beq_iff_eq.mp this
    have : x.rank = y.rank := Fin.val_injective (hxr.trans hyr.symm)
    cases x; cases y
    simp only [] at hxy this
    simp [this, hxy]
  have := List.Nodup.length_le_card hsuits
  simpa using this

theorem U_straights {k v : Nat} (h : (k, v) ∈ unsuitedStraights) : (k, v) ∈ UNSUITED := by
  rw [UNSUITED]
  exact List.mem_append_left _ (List.mem_append_left _ (List.mem_append_left _
    (List.mem_append_left _ (List.mem_append_left _ h))))

theorem U_ff {k v : Nat} (h : (k, v) ∈ foursFullT) : (k, v) ∈ UNSUITED := by
  rw [UNSUITED]
  exact List.mem_append_left _ (List.mem_append_left _ (List.mem_append_left _
    (List.mem_append_left _ (List.mem_append_right _ h))))

theorem U_trips {k v : Nat} (h : (k, v) ∈ tripsT) : (k, v) ∈ UNSUITED := by
  rw [UNSUITED]
  exact List.mem_append_left _ (List.mem_append_left _ (List.mem_append_left _
    (List.mem_append_right _ h)))

theorem U_tpair {k v : Nat} (h : (k, v) ∈ tpairT) : (k, v) ∈ UNSUITED := by
  rw [UNSUITED]
  exact List.mem_append_left _ (List.mem_append_left _ (List.mem_append_right _ h))

theorem U_pair {k v : Nat} (h : (k, v) ∈ pairT) : (k, v) ∈ UNSUITED := by
  rw [UNSUITED]
  exact List.mem_append_left _ (List.mem_append_right _ h)

theorem U_high {k v : Nat} (h : (k, v) ∈ highT) : (k, v) ∈ UNSUITED := by
  rw [UNSUITED]
  exact List.mem_append_right _ h

theorem S_straights {k v : Nat} (h : (k, v) ∈ suitedStraights) : (k, v) ∈ SUITED := by
  rw [SUITED]; exact List.mem_append_left _ h

theorem S_flush {k v : Nat} (h : (k, v) ∈ flushT) : (k, v) ∈ SUITED := by
  rw [SUITED]; exact List.mem_append_right _ h

theorem key_mem_highband (a b c d e : Nat) (ha : a < 13)
    (h1 : a > b) (h2 : b > c) (h3 : c > d) (h4 : d > e) :
    (∃ v, (keyOf [a, b, c, d, e], v) ∈ UNSUITED)
    ∧ (∃ v, (keyOf [a, b, c, d, e], v) ∈ SUITED) := by
  cases hst : isStraightTup a b c d e with
  | true =>
    simp only [isStraightTup, Bool.or_eq_true, Bool.and_eq_true, beq_iff_eq] at hst
    rcases hst with ⟨⟨⟨hd1, hc2⟩, hb3⟩, ha4⟩ | ⟨⟨⟨⟨he0, hd1⟩, hc2⟩, hb3⟩, ha12⟩
    · have hkey : keyOf [a, b, c, d, e] = keyOf [e + 4, e + 3, e + 2, e + 1, e] := by
        have h5a : a = e + 4 := by omega
        have h5b : b = e + 3 := by omega
        have h5c : c = e + 2 := by omega
        have h5d : d = e + 1 := by omega
        rw [h5a, h5b, h5c, h5d]
      rw [hkey]
      constructor
      · obtain ⟨v, hv⟩ := exists_of_mem_keys (straight_keys_unsuited e (by omega))
        exact ⟨v, U_straights hv⟩
      · obtain ⟨v, hv⟩ := exists_of_mem_keys (straight_keys_suited e (by omega))
        exact ⟨v, S_straights hv⟩
    · have hkey : keyOf [a, b, c, d, e] = keyOf [12, 3, 2, 1, 0] := by
        rw [he0, hd1, hc2, hb3, ha12]
      rw [hkey]
      constructor
      · obtain ⟨v, hv⟩ := exists_of_mem_keys wheel_key_unsuited
        exact ⟨v, U_straights hv⟩
      · obtain ⟨v, hv⟩ := exists_of_mem_keys wheel_key_suited
        exact ⟨v, S_straights hv⟩
  | false =>
    constructor
    · obtain ⟨v, hv⟩ := high_mem ha h1 h2 h3 h4 hst
      exact ⟨v, U_high hv⟩
    · obtain ⟨v, hv⟩ := flush_mem ha h1 h2 h3 h4 hst
      exact ⟨v, S_flush hv⟩

theorem key_mem_unsuited (a b c d e : Nat)
    (ha : a < 13) (hb : b < 13) (hc : c < 13) (hd : d < 13) (he : e < 13)
    (hab : a ≥ b) (hbc : b ≥ c) (hcd : c ≥ d) (hde : d ≥ e)
    (hcnt : ¬(a = b ∧ b = c ∧ c = d ∧ d = e)) :
    ∃ v, (keyOf [a, b, c, d, e], v) ∈ UNSUITED := by
  by_cases h1 : a = b <;> by_cases h2 : b = c <;> by_cases h3 : c = d <;>
    by_cases h4 : d = e
  · exact absurd ⟨h1, h2, h3, h4⟩ hcnt
  · rw [← h3, ← h2, ← h1]
    obtain ⟨v, hv⟩ := ff_fours_mem ha he (show e ≠ a by omega)
    exact ⟨v, U_ff hv⟩
  · rw [← h4, ← h2, ← h1]
    obtain ⟨v, hv⟩ := ff_full_mem ha hd (show d ≠ a by omega)
    exact ⟨v, U_ff hv⟩
  · rw [← h2, ← h1]
    obtain ⟨v, hv⟩ := trips_mem ha hd (show d ≠ a by omega) (show e < d by omega)
      (show e ≠ a by omega)
    exact ⟨v, U_trips hv⟩
  · rw [← h4, ← h3, ← h1]
    obtain ⟨v, hv⟩ := ff_full_mem hc ha (show a ≠ c by omega)
    refine ⟨v, ?_⟩
    have hkk : keyOf [a, a, c, c, c] = keyOf [c, c, c, a, a] := by
      rw [keyOf5, keyOf5]; ring
    rw [hkk]
    exact U_ff hv
  · rw [← h3, ← h1]
    obtain ⟨v, hv⟩ := tpair_mem ha (show c < a by omega) he (show e ≠ a by omega)
      (show e ≠ c by omega)
    exact ⟨v, U_tpair hv⟩
  · rw [← h4, ← h1]
    obtain ⟨v, hv⟩ := tpair_mem ha (show d < a by omega) hc (show c ≠ a by omega)
      (show c ≠ d by omega)
    refine ⟨v, ?_⟩
    have hkk : keyOf [a, a, c, d, d] = keyOf [a, a, d, d, c] := by
      rw [keyOf5, keyOf5]; ring
    rw [hkk]
    exact U_tpair hv
  · rw [← h1]
    obtain ⟨v, hv⟩ := pair_mem ha hc (show c ≠ a by omega) (show d < c by omega)
      (show d ≠ a by omega) (show e < d by omega) (show e ≠ a by omega)
    exact ⟨v, U_pair hv⟩
  · rw [← h4, ← h3, ← h2]
    obtain ⟨v, hv⟩ := ff_fours_mem hb ha (show a ≠ b by omega)
    refine ⟨v, ?_⟩
    have hkk : keyOf [a, b, b, b, b] = keyOf [b, b, b, b, a] := by
      rw [keyOf5, keyOf5]; ring
    rw [hkk]
    exact U_ff hv
  · rw [← h3, ← h2]
    obtain ⟨v, hv⟩ := trips_mem hb ha (show a ≠ b by omega) (show e < a by omega)
      (show e ≠ b by omega)
    refine ⟨v, ?_⟩
    have hkk : keyOf [a, b, b, b, e] = keyOf [b, b, b, a, e] := by
      rw [keyOf5, keyOf5]; ring
    rw [hkk]
    exact U_trips hv
  · rw [← h4, ← h2]
    obtain ⟨v, hv⟩ := tpair_mem hb (show d < b by omega) ha (show a ≠ b by omega)
      (show a ≠ d by omega)
    refine ⟨v, ?_⟩
    have hkk : keyOf [a, b, b, d, d] = keyOf [b, b, d, d, a] := by
      rw [keyOf5, keyOf5]; ring
    rw [hkk]
    exact U_tpair hv
  · rw [← h2]
    obtain ⟨v, hv⟩ := pair_mem hb ha (show a ≠ b by omega) (show d < a by omega)
      (show d ≠ b by omega) (show e < d by omega) (show e ≠ b by omega)
    refine ⟨v, ?_⟩
    have hkk : keyOf [a, b, b, d, e] = keyOf [b, b, a, d, e] := by
      rw [keyOf5, keyOf5]; ring
    rw [hkk]
    exact U_pair hv
  · rw [← h4, ← h3]
    obtain ⟨v, hv⟩ := trips_mem hc ha (show a ≠ c by omega) (show b < a by omega)
      (show b ≠ c by omega)
    refine ⟨v, ?_⟩
    have hkk : keyOf [a, b, c, c, c] = keyOf [c, c, c, a, b] := by
      rw [keyOf5, keyOf5]; ring
    rw [hkk]
    exact U_trips hv
  · rw [← h3]
    obtain ⟨v, hv⟩ := pair_mem hc ha (show a ≠ c by omega) (show b < a by omega)
      (show b ≠ c by omega) (show e < b by omega) (show e ≠ c by omega)
    refine ⟨v, ?_⟩
    have hkk : keyOf [a, b, c, c, e] = keyOf [c, c, a, b, e] := by
      rw [keyOf5, keyOf5]; ring
    rw [hkk]
    exact U_pair hv
  · rw [← h4]
    obtain ⟨v, hv⟩ := pair_mem hd ha (show a ≠ d by omega) (show b < a by omega)
      (show b ≠ d by omega) (show c < b by omega) (show c ≠ d by omega)
    refine ⟨v, ?_⟩
    have hkk : keyOf [a, b, c, d, d] = keyOf [d, d, a, b, c] := by
      rw [keyOf5, keyOf5]; ring
    rw [hkk]
    exact U_pair hv
  · exact (key_mem_highband a b c d e ha (by omega) (by omega) (by omega) (by omega)).1

theorem lookupHand_total (cs : List Card) (h5 : cs.length = 5) (hnd : cs.Nodup) :
    ∃ r, lookupHand cs = some r ∧ 1 ≤ r ∧ r ≤ 7462 := by
  have hrs : (cs.map (fun c => c.rank.val)).length = 5 := by rw [List.length_map, h5]
  set rs := cs.map (fun c => c.rank.val) with hrsdef
  set s := List.insertionSort (· ≥ ·) rs with hsdef
  have hperm : s.Perm rs := List.perm_insertionSort _ _
  have hsorted : List.Sorted (· ≥ ·) s := List.sorted_insertionSort _ _
  have hslen : s.length = 5 := hperm.length_eq.trans hrs
  obtain ⟨a, b, c, d, e, hse⟩ := list_len5 hslen
  have hkey : keyOf [a, b, c, d, e] = primeProd cs := by
    rw [← hse]
    show (s.map primeOf).prod = _
    rw [(hperm.map primeOf).prod_eq]
    show ((cs.map _).map primeOf).prod = _
    rw [List.map_map]
    rfl
  have hmem13 : ∀ x ∈ s, x < 13 := by
    intro x hx
    have hx2 : x ∈ rs := hperm.mem_iff.mp hx
    obtain ⟨cc, -, rfl⟩ := List.mem_map.mp hx2
    exact cc.rank.isLt
  rw [hse] at hsorted hmem13
  have ha13 : a < 13 := hmem13 a (by simp)
  have hb13 : b < 13 := hmem13 b (by simp)
  have hc13 : c < 13 := hmem13 c (by simp)
  have hd13 : d < 13 := hmem13 d (by simp)
  have he13 : e < 13 := hmem13 e (by simp)
  obtain ⟨hga, hsorted⟩ := List.sorted_cons.mp hsorted
  obtain ⟨hgb, hsorted⟩ := List.sorted_cons.mp hsorted
  obtain ⟨hgc, hsorted⟩ := List.sorted_cons.mp hsorted
  obtain ⟨hgd, -⟩ := List.sorted_cons.mp hsorted
  have hab : a ≥ b := hga b (by simp)
  have hbc : b ≥ c := hgb c (by simp)
  have hcd : c ≥ d := hgc d (by simp)
  have hde : d ≥ e := hgd e (by simp)
  by_cases hsuit : sameB (cs.map Card.suit) = true
  · have hrsnd : rs.Nodup := by
      rw [hrsdef]
      refine List.Nodup.map_on ?_ hnd
      intro x hx y hy hxy
      have hsx : x.suit = y.suit := sameB_all_eq hsuit x.suit
        (List.mem_map_of_mem _ hx) y.suit (List.mem_map_of_mem _ hy)
      have hrxy : x.rank = y.rank := Fin.val_injective hxy
      cases x
      cases y
      simp only [] at hrxy hsx
      simp [hrxy, hsx]
    have hsnd : s.Nodup := hperm.nodup_iff.mpr hrsnd
    rw [hse] at hsnd
    simp only [List.nodup_cons, List.mem_cons, List.not_mem_nil, or_false,
      List.nodup_nil, and_true] at hsnd
    push_neg at hsnd
    obtain ⟨⟨hne1, -, -, -⟩, ⟨hne2, -, -⟩, ⟨hne3, -⟩, hne4⟩ := hsnd
    obtain ⟨-, hsui⟩ := key_mem_highband a b c d e ha13 (by omega) (by omega)
      (by omega) (by omega)
    obtain ⟨v, hv⟩ := hsui
    rw [hkey] at hv
    obtain ⟨r, hr⟩ := lookup_isSome_of_mem hv
    refine ⟨r, ?_, (SUITED_val (lookup_mem hr)).1, (SUITED_val (lookup_mem hr)).2⟩
    rw [lookupHand_tables, if_pos hsuit]
    exact hr
  · have hcnt : ∀ x, s.count x ≤ 4 := fun x => by
      rw [hperm.count_eq]
      exact count_le_four hnd x
    have hcnt5 : ¬(a = b ∧ b = c ∧ c = d ∧ d = e) := by
      rintro ⟨rfl, rfl, rfl, rfl⟩
      have hcc := hcnt a
      rw [hse] at hcc
      simp [List.count_cons] at hcc
    obtain ⟨v, hv⟩ := key_mem_unsuited a b c d e ha13 hb13 hc13 hd13 he13
      hab hbc hcd hde hcnt5
    rw [hkey] at hv
    obtain ⟨r, hr⟩ := lookup_isSome_of_mem hv
    refine ⟨r, ?_, (UNSUITED_val (lookup_mem hr)).1, (UNSUITED_val (lookup_mem hr)).2⟩
    rw [lookupHand_tables, if_neg hsuit]
    exact hr

theorem evaluateF_five {cs : List Card} (h5 : cs.length = 5) (fuel : Nat) :
    evaluateF (fuel + 1) cs = lookupHand cs := by
  unfold evaluateF
  rw [if_pos h5]

theorem evaluate_five {cs : List Card} (h5 : cs.length = 5) :
    evaluate cs = lookupHand cs := by
  rw [evaluate, h5]
  exact evaluateF_five h5 4

theorem evaluate_five_total (cs : List Card) (h5 : cs.length = 5) (hnd : cs.Nodup) :
    ∃ r, evaluate cs = some r ∧ 1 ≤ r ∧ r ≤ 7462 := by
  rw [evaluate_five h5]
  exact lookupHand_total cs h5 hnd

theorem evaluate_many (cs : List Card) (hnd : cs.Nodup) (hgt : 5 < cs.length)
    (hle : cs.length ≤ 7) :
    ∃ vs : List Nat, (combosK 5 cs).map evaluate = vs.map some
      ∧ evaluate cs = vs.min?
      ∧ ∃ r, evaluate cs = some r ∧ 1 ≤ r ∧ r ≤ 7462 := by
  have hcombo : ∀ s ∈ combosK 5 cs, ∃ y, evaluate s = some y ∧ 1 ≤ y ∧ y ≤ 7462 := by
    intro s hs
    obtain ⟨hsub, hlen⟩ := (mem_combosK cs 5 s).mp hs
    exact evaluate_five_total s hlen (hnd.sublist hsub)
  obtain ⟨vs, hall, hmap⟩ := allSome_spec evaluate (combosK 5 cs)
    (fun s hs => (hcombo s hs).imp (fun y hy => hy.1))
  have hmapeq : (combosK 5 cs).map (evaluateF (cs.length - 1))
      = (combosK 5 cs).map evaluate := by
    refine List.map_congr_left (fun s hs => ?_)
    obtain ⟨hsub, hlen⟩ := (mem_combosK cs 5 s).mp hs
    obtain ⟨m, hm⟩ : ∃ m, cs.length - 1 = m + 1 := ⟨cs.length - 2, by omega⟩
    rw [hm, evaluateF_five hlen m, evaluate_five hlen]
  have heval : evaluate cs = vs.min? := by
    obtain ⟨n, hn⟩ : ∃ n, cs.length = n + 1 := ⟨cs.length - 1, by omega⟩
    rw [evaluate, hn]
    unfold evaluateF
    rw [if_neg (by omega), if_pos (by omega)]
    have hn2 : n = cs.length - 1 := by omega
    rw [hn2, hmapeq, hall]
  have hne : vs ≠ [] := by
    intro hnil
    have htake : cs.take 5 ∈ combosK 5 cs := by
      refine (mem_combosK cs 5 (cs.take 5)).mpr ⟨List.take_sublist _ _, ?_⟩
      rw [List.length_take]
      omega
    have : (cs.take 5) ∈ combosK 5 cs → evaluate (cs.take 5) ∈ (combosK 5 cs).map evaluate :=
      fun h => List.mem_map_of_mem _ h
    have hmem := this htake
    rw [hmap, hnil] at hmem
    simp at hmem
  obtain ⟨m, hm⟩ : ∃ m, vs.min? = some m := by
    cases hvm : vs.min? with
    | none => exact absurd (List.min?_eq_none_iff.mp hvm) hne
    | some m => exact ⟨m, rfl⟩
  have hmmem : m ∈ vs := List.min?_mem (fun _ _ => min_choice _ _) hm
  have hsome : some m ∈ (combosK 5 cs).map evaluate := by
    rw [hmap]
    exact List.mem_map_of_mem _ hmmem
  obtain ⟨s, hsmem, hseval⟩ := List.mem_map.mp hsome
  obtain ⟨y, hy1, hy2, hy3⟩ := hcombo s hsmem
  have hym : y = m := by
    rw [hy1] at hseval
    exact Option.some.inj hseval
  refine ⟨vs, hmap, heval, m, ?_, ?_, ?_⟩
  · rw [heval, hm]
  · omega
  · omega

/-- C2: for every list of 5 to 7 distinct cards, `evaluate` returns a rank
in [1, 7462]; for more than 5 cards the result is the minimum of the
evaluations of the 5-card combinations, which are exactly the 5-element
subsets (sublists) of the card list; `evaluate` is a pure function of the
card list by construction. -/
theorem C2_evaluate_contract :
    (∀ cs : List Card, cs.Nodup → 5 ≤ cs.length → cs.length ≤ 7 →
        ∃ r, evaluate cs = some r ∧ 1 ≤ r ∧ r ≤ 7462)
    ∧ (∀ cs : List Card, cs.Nodup → 5 < cs.length → cs.length ≤ 7 →
        ∃ vs : List Nat, (combosK 5 cs).map evaluate = vs.map some
          ∧ evaluate cs = vs.min?)
    ∧ (∀ s cs : List Card, s ∈ combosK 5 cs ↔ s.Sublist cs ∧ s.length = 5) := by
  refine ⟨?_, ?_, ?_⟩
  · intro cs hnd hge hle
    rcases Nat.lt_or_ge 5 cs.length with hgt | hge5
    · exact (evaluate_many cs hnd hgt hle).choose_spec.2.2
    · exact evaluate_five_total cs (by omega) hnd
  · intro cs hnd hgt hle
    obtain ⟨vs, h1, h2, -⟩ := evaluate_many cs hnd hgt hle
    exact ⟨vs, h1, h2⟩
  · intro s cs
    exact mem_combosK cs 5 s

theorem C2_evaluate_contract_witness :
    ∃ r, evaluate [mkCard 12 1, mkCard 11 1, mkCard 10 1, mkCard 9 1, mkCard 8 1,
        mkCard 0 0, mkCard 8 0] = some r ∧ 1 ≤ r ∧ r ≤ 7462 :=
  C2_evaluate_contract.1
    [mkCard 12 1, mkCard 11 1, mkCard 10 1, mkCard 9 1, mkCard 8 1,
      mkCard 0 0, mkCard 8 0]
    (by decide) (by decide) (by decide)
